import Mathlib

/-!
Verification development for the CognitoTable detection-and-extraction pipeline.

The DOM-independent computations of the pipeline (cell type classification,
explicit-table header analysis, the virtualization-detection policy, result
normalization, the scan orchestrator's replacement/deduplication logic, and the
virtualized recovery engine's control flow) are embedded as executable Lean
definitions.  DOM-dependent inputs (the outputs of `analyzeImplicitTable`, the
set of scrollable targets, computed-style signals) are supplied as explicit
environment values, since they are produced by the browser.

Numeric computations use `ℚ` in place of JavaScript numbers; the quantities
involved (match fractions, weights, scroll offsets) are exact in both.
-/

/-! ## JavaScript string trim -/

/-- Whitespace test used by the model of `String.prototype.trim`. -/
def jsWhitespace (c : Char) : Bool := c.isWhitespace

/-- Model of JavaScript `String.prototype.trim`: drop whitespace from both ends. -/
def jsTrim (s : String) : String :=
  ⟨List.rdropWhile jsWhitespace (s.data.dropWhile jsWhitespace)⟩

/-! ## Regular expressions (Brzozowski derivatives)

The source tests cell text against JavaScript regular expressions.  Each regex
literal of the source is translated node-by-node into the following AST; `test`
on a fully anchored pattern (`^...$`) is language membership of the whole
string, which the derivative-based matcher decides. -/

inductive Rx where
  | emp : Rx
  | eps : Rx
  | cls : (Char → Bool) → Rx
  | alt : Rx → Rx → Rx
  | cat : Rx → Rx → Rx
  | star : Rx → Rx

def Rx.nullable : Rx → Bool
  | .emp => false
  | .eps => true
  | .cls _ => false
  | .alt a b => a.nullable || b.nullable
  | .cat a b => a.nullable && b.nullable
  | .star _ => true

def Rx.deriv : Rx → Char → Rx
  | .emp, _ => .emp
  | .eps, _ => .emp
  | .cls p, c => if p c then .eps else .emp
  | .alt a b, c => .alt (a.deriv c) (b.deriv c)
  | .cat a b, c =>
      if a.nullable then .alt (.cat (a.deriv c) b) (b.deriv c)
      else .cat (a.deriv c) b
  | .star a, c => .cat (a.deriv c) (.star a)

/-- Whole-string regex match (JS `re.test` for `^...$`-anchored patterns). -/
def rxMatch (r : Rx) (s : String) : Bool :=
  (s.data.foldl Rx.deriv r).nullable

def rxChar (c : Char) : Rx := .cls (fun x => x = c)

def rxOpt (r : Rx) : Rx := .alt .eps r

def rxPlus (r : Rx) : Rx := .cat r (.star r)

def rxSeq : List Rx → Rx
  | [] => .eps
  | [r] => r
  | r :: rs => .cat r (rxSeq rs)

def rxStr (s : String) : Rx := rxSeq (s.data.map rxChar)

/-- JS `\d` (ASCII digits). -/
def rxDigit : Rx := .cls Char.isDigit

/-- JS `\s`. -/
def rxWs : Rx := .cls jsWhitespace

/-- A character class given by a list of allowed characters. -/
def rxOneOf (s : String) : Rx := .cls (fun c => s.data.contains c)

/-- JS `.` (any character except line terminators). -/
def rxDot : Rx := .cls (fun c => !(c = '\n' || c = '\r'))

/-- Any character at all (used to model an unanchored pattern tail). -/
def rxAnyChar : Rx := .cls (fun _ => true)

/-- Case-insensitive literal (for patterns carrying the `i` flag). -/
def rxCI (s : String) : Rx :=
  rxSeq (s.data.map (fun c => .cls (fun x => x = c.toLower || x = c.toUpper)))

/-! The nine weighted type patterns of `inferSingleColumnType`, plus the
numeric-cell pattern of `detectHeaderRowsEnd`, each translated from the
corresponding JS regex literal. -/

/-- `/^-?\d+(\.\d+)?$/` -/
def numberRx : Rx :=
  rxSeq [rxOpt (rxChar '-'), rxPlus rxDigit, rxOpt (.cat (rxChar '.') (rxPlus rxDigit))]

/-- `/^[\$\€\£\¥]?\s?\d+([,\.]?\d+)*(\.\d{2})?$/` -/
def currencyRx : Rx :=
  rxSeq [rxOpt (rxOneOf "$€£¥"), rxOpt rxWs, rxPlus rxDigit,
    .star (.cat (rxOpt (rxOneOf ",.")) (rxPlus rxDigit)),
    rxOpt (rxSeq [rxChar '.', rxDigit, rxDigit])]

/-- `/^\d+(\.\d+)?%$/` -/
def percentageRx : Rx :=
  rxSeq [rxPlus rxDigit, rxOpt (.cat (rxChar '.') (rxPlus rxDigit)), rxChar '%']

/-- `\d{1,2}` -/
def rxDigit12 : Rx := .cat rxDigit (rxOpt rxDigit)

/-- `[\/\-]` -/
def rxDateSep : Rx := rxOneOf "/-"

/-- `\d{2,4}` -/
def rxDigit24 : Rx := rxSeq [rxDigit, rxDigit, rxOpt (.cat rxDigit (rxOpt rxDigit))]

/-- `\d{4}` -/
def rxDigit4 : Rx := rxSeq [rxDigit, rxDigit, rxDigit, rxDigit]

/-- `/^\d{1,2}[\/\-]\d{1,2}[\/\-]\d{2,4}$|^\d{4}[\/\-]\d{1,2}[\/\-]\d{1,2}$/` -/
def dateRx : Rx :=
  .alt (rxSeq [rxDigit12, rxDateSep, rxDigit12, rxDateSep, rxDigit24])
    (rxSeq [rxDigit4, rxDateSep, rxDigit12, rxDateSep, rxDigit12])

/-- `/^\d{1,2}:\d{2}(:\d{2})?(\s?(AM|PM))?$/i` -/
def timeRx : Rx :=
  rxSeq [rxDigit12, rxChar ':', rxDigit, rxDigit,
    rxOpt (rxSeq [rxChar ':', rxDigit, rxDigit]),
    rxOpt (.cat (rxOpt rxWs) (.alt (rxCI "AM") (rxCI "PM")))]

/-- `[^\s@]` -/
def rxNonWsAt : Rx := .cls (fun c => !(jsWhitespace c || c = '@'))

/-- `/^[^\s@]+@[^\s@]+\.[^\s@]+$/` -/
def emailRx : Rx :=
  rxSeq [rxPlus rxNonWsAt, rxChar '@', rxPlus rxNonWsAt, rxChar '.', rxPlus rxNonWsAt]

/-- `/^https?:\/\/.+/` — `test` with no `$` anchor: the trailing `star` absorbs
the remainder of the string after the mandatory first character of `.+`. -/
def urlRx : Rx :=
  rxSeq [rxStr "http", rxOpt (rxChar 's'), rxStr "://", rxDot, .star rxAnyChar]

/-- `/^[\+]?[\d\s\-\(\)]+$/` -/
def phoneRx : Rx :=
  .cat (rxOpt (rxChar '+'))
    (rxPlus (.cls (fun c => c.isDigit || jsWhitespace c || c = '-' || c = '(' || c = ')')))

/-- `/^(true|false|yes|no|y|n|1|0)$/i` -/
def booleanRx : Rx :=
  [rxCI "true", rxCI "false", rxCI "yes", rxCI "no", rxCI "y", rxCI "n",
    rxStr "1", rxStr "0"].foldr Rx.alt .emp

/-- `/^-?[\d,]+(\.\d+)?$/` (the numeric-cell test of `detectHeaderRowsEnd`). -/
def headerNumericRx : Rx :=
  rxSeq [rxOpt (rxChar '-'), rxPlus (.cls (fun c => c.isDigit || c = ',')),
    rxOpt (.cat (rxChar '.') (rxPlus rxDigit))]

/-! ## Data model -/

/-- `{ type, confidence }` as produced by column type inference. -/
structure TypeGuess where
  type : String
  confidence : ℚ
deriving DecidableEq

/-- `{ headers, rows, columnTypes }`. -/
structure TableData where
  headers : List String
  rows : List (List String)
  columnTypes : List TypeGuess
deriving DecidableEq

/-! ## Column type inference (`TableAnalyzer.inferSingleColumnType` and
`TableAnalyzer.inferColumnTypes`) -/

/-- One entry of the `typeTests` array. -/
structure TypeTest where
  type : String
  test : Rx
  weight : ℚ

/-- The `typeTests` array, in source order. -/
def typeTests : List TypeTest :=
  [⟨"number", numberRx, 1⟩,
   ⟨"currency", currencyRx, 9/10⟩,
   ⟨"percentage", percentageRx, 9/10⟩,
   ⟨"date", dateRx, 9/10⟩,
   ⟨"time", timeRx, 8/10⟩,
   ⟨"email", emailRx, 8/10⟩,
   ⟨"url", urlRx, 8/10⟩,
   ⟨"phone", phoneRx, 7/10⟩,
   ⟨"boolean", booleanRx, 6/10⟩]

/-- `(matches / values.length) * weight` for one type test. -/
def scoreOf (t : TypeTest) (values : List String) : ℚ :=
  ((values.filter (fun v => rxMatch t.test (jsTrim v))).length : ℚ)
    / (values.length : ℚ) * t.weight

/-- The `typeTests.forEach` body of `inferSingleColumnType`:
`if (confidence > bestType.confidence && confidence > 0.7) bestType = ...`. -/
def typeTestStep (values : List String) (bestType : TypeGuess) (t : TypeTest) :
    TypeGuess :=
  let confidence := scoreOf t values
  if confidence > bestType.confidence ∧ confidence > 7/10 then ⟨t.type, confidence⟩
  else bestType

/-- `TableAnalyzer.inferSingleColumnType`. -/
def inferSingleColumnType (values : List String) : TypeGuess :=
  if values.length = 0 then ⟨"empty", 0⟩
  else typeTests.foldl (typeTestStep values) ⟨"text", 0⟩

/-- `TableAnalyzer.inferColumnTypes`. -/
def inferColumnTypes (rows : List (List String)) : List TypeGuess :=
  if rows.length = 0 then []
  else
    let maxColumns := (rows.map List.length).foldl max 0
    (List.range maxColumns).map (fun col =>
      inferSingleColumnType
        ((rows.map (fun row => row.getD col "")).filter
          (fun val => (jsTrim val).length > 0)))

/-! ## Explicit table analyzer (`TableAnalyzer.analyzeExplicitTable`,
`detectHeaderRowsEnd`, `processMultiLevelHeaders`)

A table row is the list of its `td`/`th` cells (as returned by the row's
`querySelectorAll('td, th')`, in document order); `text` is the already
extracted cell text (`extractCellText`), and `colspan`/`rowspan` are the parsed
span attributes (`parseInt(attr || '1')`, absent attributes giving 1). -/

structure Cell where
  isTh : Bool
  colspan : ℕ
  rowspan : ℕ
  text : String
deriving DecidableEq

/-- `extractCellText(cell).trim().replace(/[,\s]/g, '')`. -/
def stripCommasWs (s : String) : String :=
  ⟨(jsTrim s).data.filter (fun c => !(c = ',' || jsWhitespace c))⟩

/-- Header-likeness of one row (`hasThCells || hasSpans || nonNumeric > 70%`). -/
def isHeaderLikeRow (cells : List Cell) : Bool :=
  let hasThCells := cells.any (fun cell => cell.isTh)
  let hasSpans := cells.any (fun cell => cell.colspan > 1 || cell.rowspan > 1)
  let nonNumericCells :=
    cells.filter (fun cell => !(rxMatch headerNumericRx (stripCommasWs cell.text)))
  hasThCells || hasSpans ||
    decide ((nonNumericCells.length : ℚ) > (cells.length : ℚ) * (7/10))

/-- The scanning loop of `detectHeaderRowsEnd`, over the indexed first
`min(rows.length, 6)` rows: rows with no cells are skipped (`continue`); a
header-like row at index `i` sets the count to `i + 1`; the first
non-header-like row after at least one header row exits the loop (`break`). -/
def detectHeaderRowsEndGo : List (ℕ × List Cell) → ℕ → ℕ
  | [], count => count
  | (i, cells) :: rest, count =>
    if cells.length = 0 then detectHeaderRowsEndGo rest count
    else if isHeaderLikeRow cells then detectHeaderRowsEndGo rest (i + 1)
    else if count > 0 then count
    else detectHeaderRowsEndGo rest count

/-- `TableAnalyzer.detectHeaderRowsEnd` (`rows.take 6` is the
`i < Math.min(rows.length, 6)` loop range). -/
def detectHeaderRowsEnd (rows : List (List Cell)) : ℕ :=
  let headerRowsCount := detectHeaderRowsEndGo (rows.take 6).enum 0
  if headerRowsCount = 0 then
    match rows.head? with
    | some firstRow => if firstRow.any (fun cell => cell.isTh) then 1 else 0
    | none => 0
  else headerRowsCount

/-- A filled position of the header grid. -/
structure GridCell where
  text : String
  isSpanOrigin : Bool
deriving DecidableEq

/-- Column count of one header row (sum of colspans). -/
def rowColCount (row : List Cell) : ℕ :=
  row.foldl (fun colCount cell => colCount + cell.colspan) 0

/-- `maxCols` of `buildHeaderGrid`. -/
def maxColsOf (headerRows : List (List Cell)) : ℕ :=
  (headerRows.map rowColCount).foldl max 0

/-- The advancing loop of `skipFilled`, with `maxCols - i` as fuel (positive
fuel is exactly `i < maxCols`). -/
def skipFilledGo (rowArr : List (Option GridCell)) : ℕ → ℕ → ℕ
  | 0, i => i
  | fuel + 1, i =>
    if (rowArr.getD i none).isSome then skipFilledGo rowArr fuel (i + 1) else i

/-- `while (colIndex < maxCols && grid[rowIndex][colIndex] !== null) colIndex++`. -/
def skipFilled (rowArr : List (Option GridCell)) (maxCols : ℕ) (i : ℕ) : ℕ :=
  skipFilledGo rowArr (maxCols - i) i

/-- Set grid position `(r, c)` (both in range by construction). -/
def gridSet (grid : List (List (Option GridCell))) (r c : ℕ) (v : GridCell) :
    List (List (Option GridCell)) :=
  grid.set r ((grid.getD r []).set c (some v))

/-- The nested placement loops of `buildHeaderGrid` for one cell: positions
`(rowIndex + r, colIndex + c)` for `r < rowspan`, `c < colspan`, clipped to the
grid (`rowIndex + r < grid.length`, `colIndex + c < maxCols`). -/
def placeCell (grid : List (List (Option GridCell))) (maxCols rowIndex colIndex : ℕ)
    (cell : Cell) : List (List (Option GridCell)) :=
  (List.range cell.rowspan).foldl
    (fun g r =>
      if rowIndex + r < g.length then
        (List.range cell.colspan).foldl
          (fun g2 c =>
            if colIndex + c < maxCols then
              gridSet g2 (rowIndex + r) (colIndex + c)
                ⟨jsTrim cell.text, r = 0 && c = 0⟩
            else g2)
          g
      else g)
    grid

/-- Processing of one header row's cells in `buildHeaderGrid` (state: grid and
`colIndex`); a cell landing past `maxCols` is skipped (`return` inside
`forEach` acts as `continue`). -/
def buildHeaderGridRow (maxCols rowIndex : ℕ)
    (st : List (List (Option GridCell)) × ℕ) (cell : Cell) :
    List (List (Option GridCell)) × ℕ :=
  let ci := skipFilled (st.1.getD rowIndex []) maxCols st.2
  if ci ≥ maxCols then (st.1, ci)
  else (placeCell st.1 maxCols rowIndex ci cell, ci + cell.colspan)

/-- `TableAnalyzer.buildHeaderGrid`. -/
def buildHeaderGrid (headerRows : List (List Cell)) :
    List (List (Option GridCell)) :=
  let maxCols := maxColsOf headerRows
  let init := List.replicate headerRows.length (List.replicate maxCols
    (none : Option GridCell))
  (headerRows.enum.foldl
    (fun grid rowPair =>
      (rowPair.2.foldl (buildHeaderGridRow maxCols rowPair.1) (grid, 0)).1)
    init)

/-- One row's contribution to a column's `headerParts` accumulation
(`if (cell && cell.text && !headerParts.includes(cell.text))
headerParts.push(cell.text)`). -/
def columnPartsStep (col : ℕ) (headerParts : List String)
    (row : List (Option GridCell)) : List String :=
  match row.getD col none with
  | some cell =>
      if cell.text ≠ "" ∧ cell.text ∉ headerParts then headerParts ++ [cell.text]
      else headerParts
  | none => headerParts

/-- The per-column accumulation of `generateFinalHeaders`: distinct, order
preserved, non-empty text values down the column. -/
def columnParts (grid : List (List (Option GridCell))) (col : ℕ) : List String :=
  grid.foldl (columnPartsStep col) []

/-- `TableAnalyzer.generateFinalHeaders`. -/
def generateFinalHeaders (grid : List (List (Option GridCell))) : List String :=
  if grid.length = 0 then []
  else
    let numCols := (grid.headD []).length
    (List.range numCols).map (fun col =>
      let finalHeader := String.intercalate " - " (columnParts grid col)
      if finalHeader = "" then "Column " ++ toString (col + 1) else finalHeader)

/-- `TableAnalyzer.processMultiLevelHeaders`. -/
def processMultiLevelHeaders (headerRows : List (List Cell)) : List String :=
  if headerRows.length = 0 then []
  else generateFinalHeaders (buildHeaderGrid headerRows)

/-- `TableAnalyzer.analyzeExplicitTable`, over the table's row list (the result
of `table.querySelectorAll('tr')` with extracted cell data). -/
def analyzeExplicitTable (allRows : List (List Cell)) : TableData :=
  if allRows.length = 0 then ⟨[], [], []⟩
  else
    let headerRowsEnd := detectHeaderRowsEnd allRows
    let headerRows := allRows.take headerRowsEnd
    let dataRows := allRows.drop headerRowsEnd
    let headers := if headerRows.length > 0 then processMultiLevelHeaders headerRows else []
    let rows := (dataRows.map (fun row => row.map (fun cell => cell.text))).filter
      (fun cells => cells.any (fun cell => (jsTrim cell).length > 0))
    ⟨headers, rows, inferColumnTypes rows⟩

/-! ## Virtualization detection (`VirtualizedTableHandler.detectVirtualizedTable`)

The six indicator checks query the live DOM (class hints, scrollable parents,
computed transforms); their boolean outcomes are environment inputs.  The
combination policy below is the detection logic itself (the stricter revision,
which the design notes adopt as canonical). -/

structure VSignals where
  /-- `(container.tagName || '').toLowerCase() === 'table'` -/
  isPlainTable : Bool
  reactOrVirtualClass : Bool
  scrollableParentWithSparseDom : Bool
  transformTranslateUsage : Bool
  lazyOrLoadMarkers : Bool
  knownGridLibs : Bool
  /-- Weak cue: `querySelectorAll('tr, [class*="row"], [class*="item"], li').length >= 5` -/
  manyRowsVisible : Bool

/-- The number of strong cues that fired. -/
def strongSignals (s : VSignals) : ℕ :=
  ([s.reactOrVirtualClass, s.scrollableParentWithSparseDom, s.transformTranslateUsage,
    s.lazyOrLoadMarkers, s.knownGridLibs].filter (fun b => b)).length

/-- `checks.manyRowsVisible() ? 1 : 0`. -/
def weakSignals (s : VSignals) : ℕ := if s.manyRowsVisible then 1 else 0

/-- `VirtualizedTableHandler.detectVirtualizedTable` (combination policy). -/
def detectVirtualizedTable (s : VSignals) : Bool :=
  if s.isPlainTable then decide (strongSignals s ≥ 1)
  else decide (strongSignals s + weakSignals s ≥ 2)

/-! ## Row fingerprints and result normalization
(`VirtualizedTableHandler._normalizeData`) -/

/-- `row.join('|')` — the row content fingerprint. -/
def rowKey (row : List String) : String := String.intercalate "|" row

/-- Number of distinct row fingerprints of a table (the "unique rows" measure). -/
def uniqueRowCount (d : TableData) : ℕ := ((d.rows.map rowKey).dedup).length

/-- The seen-set row deduplication used by `_normalizeData` (and, with the same
key, by `performScrollExtraction` and `performDeepTableScan`): keep the first
occurrence of each fingerprint. -/
def dedupByKeyGo (seen : List String) : List (List String) → List (List String)
  | [] => []
  | r :: rest =>
      let key := rowKey r
      if key ∈ seen then dedupByKeyGo seen rest
      else r :: dedupByKeyGo (key :: seen) rest

def dedupByKey (rows : List (List String)) : List (List String) :=
  dedupByKeyGo [] rows

/-- `row.length === headersNorm.length && row.every((v, i) => v === headersNorm[i])`. -/
def rowEqHeaders (row headersNorm : List String) : Bool :=
  row.length = headersNorm.length &&
    (row.zip headersNorm).all (fun p => p.1 = p.2)

/-- `VirtualizedTableHandler._normalizeData` on a non-null result. -/
def normalizeData (d : TableData) : TableData :=
  let headersNorm := d.headers.map jsTrim
  let rows0 := d.rows.map (fun r => r.map jsTrim)
  let rows1 :=
    if headersNorm.length > 0 ∧ rows0.length > 0 then
      rows0.filter (fun row => !rowEqHeaders row headersNorm)
    else rows0
  let rows2 := dedupByKey rows1
  ⟨d.headers, rows2, inferColumnTypes rows2⟩

/-- `_normalizeData` including the null case (`if (!data ...) return data`). -/
def normalizeOpt : Option TableData → Option TableData
  | none => none
  | some d => some (normalizeData d)

/-! ## Utilities (`Utils.createTableContentSignature`, `Utils.generatePreview`) -/

/-- `Utils.createTableContentSignature`. -/
def createTableContentSignature (tableData : TableData) : String :=
  let parts : List String :=
    (if tableData.headers.length > 0 then
      ["H:" ++ String.intercalate "|" tableData.headers] else []) ++
    (if tableData.rows.length > 0 then
      (tableData.rows.take 3).enum.map
        (fun p => "R" ++ toString p.1 ++ ":" ++ String.intercalate "|" p.2)
     else []) ++
    ["Count:" ++ toString tableData.rows.length ++ "x" ++
      toString tableData.headers.length]
  String.intercalate "::" parts

/-- JS `s.substring(0, n)` for our purposes. -/
def strTake (s : String) (n : ℕ) : String := ⟨s.data.take n⟩

/-- JS `s.repeat(n)`. -/
def strRepeat (s : String) (n : ℕ) : String := String.join (List.replicate n s)

/-- The per-cell truncation of `generatePreview`. -/
def previewCell (h : String) : String :=
  if h.length > 15 then strTake h 12 ++ "..." else h

/-- `Utils.generatePreview` (default `maxRows = 3`, `maxCols = 4`). -/
def generatePreview (tableData : TableData) : String :=
  let headerPart :=
    if tableData.headers.length > 0 then
      let headerLine := String.intercalate " | "
        ((tableData.headers.take 4).map previewCell)
      headerLine ++ "\n" ++ strRepeat "─" (min 60 headerLine.length) ++ "\n"
    else ""
  let rowsPart := String.join
    ((tableData.rows.take 3).map (fun row =>
      String.intercalate " | " ((row.take 4).map previewCell) ++ "\n"))
  let moreRows :=
    if tableData.rows.length > 3 then
      "... and " ++ toString (tableData.rows.length - 3) ++ " more rows\n"
    else ""
  let moreCols :=
    if tableData.headers.length > 4 then
      "... and " ++ toString (tableData.headers.length - 4) ++ " more columns\n"
    else ""
  jsTrim (headerPart ++ rowsPart ++ moreRows ++ moreCols)

/-! ## Scan orchestrator (`CognitoTableContentScript.scanAndSendTables`)

The DOM-dependent per-candidate values are environment inputs: the baseline
extraction (`analyzeExplicitTable` / `analyzeImplicitTable` output, `none` for
a null result), the virtualization-predicate outcome, and the raw best result
assembled inside `extractVirtualizedTableData` before its final
`_normalizeData` (the handler's return value is `normalizeOpt enhancedRaw`). -/

structure ExplicitEntry where
  baseline : Option TableData
  isVirt : Bool
  enhancedRaw : Option TableData
  selector : String
deriving DecidableEq

structure ImplicitEntry where
  confidence : ℚ
  baseline : Option TableData
  isVirt : Bool
  enhancedRaw : Option TableData
  selector : String
deriving DecidableEq

structure ScanEnv where
  explicits : List ExplicitEntry
  implicits : List ImplicitEntry
deriving DecidableEq

/-- One `tableFound` message payload. -/
structure Record where
  id : ℕ
  type : String
  confidence : ℚ
  element : String
  data : TableData
  preview : String
deriving DecidableEq

/-- The mutable scan state: `seenContent` keys, `tableId`, emitted tables. -/
structure ScanState where
  seen : List String
  nextId : ℕ
  records : List Record
deriving DecidableEq

/-- The replacement decision of `scanAndSendTables`:
`if (enhancedData && enhancedData.rows.length > tableData.rows.length)
tableData = enhancedData` (run only when the virtualization predicate held). -/
def chooseData (isVirt : Bool) (base : TableData) (enhanced : Option TableData) :
    TableData :=
  if isVirt then
    match enhanced with
    | some enh => if enh.rows.length > base.rows.length then enh else base
    | none => base
  else base

/-- One iteration of the explicit-tables loop of `scanAndSendTables`. -/
def processExplicitEntry (st : ScanState) (e : ExplicitEntry) : ScanState :=
  match e.baseline with
  | none => st
  | some base =>
    if base.rows.length = 0 then st
    else
      let data := chooseData e.isVirt base (normalizeOpt e.enhancedRaw)
      let signature := createTableContentSignature data
      if signature ∈ st.seen then st
      else
        ⟨signature :: st.seen, st.nextId + 1,
          st.records ++ [⟨st.nextId + 1, "explicit", 95/100, e.selector, data,
            generatePreview data⟩]⟩

/-- One iteration of the implicit-tables loop of `scanAndSendTables`. -/
def processImplicitEntry (st : ScanState) (e : ImplicitEntry) : ScanState :=
  match e.baseline with
  | none => st
  | some base =>
    if base.rows.length ≤ 1 then st
    else
      let data := chooseData e.isVirt base (normalizeOpt e.enhancedRaw)
      let signature := createTableContentSignature data
      if signature ∈ st.seen then st
      else
        ⟨signature :: st.seen, st.nextId + 1,
          st.records ++ [⟨st.nextId + 1, "implicit", e.confidence, e.selector, data,
            generatePreview data⟩]⟩

/-- `scanAndSendTables`: the explicit loop followed by the implicit loop, with
the shared `seenContent` map and `tableId` counter. -/
def scanAndSendTables (env : ScanEnv) : ScanState :=
  env.implicits.foldl processImplicitEntry
    (env.explicits.foldl processExplicitEntry ⟨[], 0, []⟩)

/-! ## Virtualized recovery engine
(`VirtualizedTableHandler.extractVirtualizedTableData` and
`performScrollExtraction`), over a static document

The document is modelled as unchanging during recovery: every call to
`analyzeImplicitTable(container)` returns the same environment-supplied
`baseline` (also under the zoom simulation, which alters styles only), and
`performDeepTableScan`'s result is an environment input.  The scroll offsets
of the window, of `document.body` and of the scrollable elements are explicit
state; `window.scrollTo(0, p)` writes the window offset (also when the scroll
target is `document.body`, per the `isWindow` test of the source), and an
element target writes its own `scrollTop`. -/

/-- An entry of `allRowsWithPositions`. -/
structure ScrollEntry where
  data : List String
  scroll : ℚ
  order : ℕ
deriving DecidableEq

/-- The accumulation state of `performScrollExtraction`. -/
structure SState where
  entries : List ScrollEntry
  seenRows : List String
  headers : List String
deriving DecidableEq

/-- The sort comparator `(a, b) => a.scroll !== b.scroll ? a.scroll - b.scroll
: a.order - b.order`, as the ordering it sorts by. -/
def entryLe (a b : ScrollEntry) : Prop :=
  a.scroll < b.scroll ∨ (a.scroll = b.scroll ∧ a.order ≤ b.order)

instance : DecidableRel entryLe := fun a b =>
  inferInstanceAs (Decidable (a.scroll < b.scroll ∨
    (a.scroll = b.scroll ∧ a.order ≤ b.order)))

/-- Accumulation of one extracted row at a scroll position (the
`stepData.rows.forEach` body). -/
def addScrollRow (pos : ℚ) (st : List ScrollEntry × List String)
    (row : List String) : List ScrollEntry × List String :=
  match st with
  | (es, sn) =>
    let key := rowKey row
    if key ∈ sn then (es, sn)
    else (es ++ [⟨row, pos, es.length⟩], key :: sn)

/-- One scroll step's extraction and accumulation (static document: the
re-extraction `analyzeImplicitTable(container)` yields `b`). -/
def scrollStepData (b : Option TableData) (pos : ℚ) (ss : SState) : SState :=
  match b with
  | none => ss
  | some bd =>
    let headers :=
      if bd.headers.length > ss.headers.length then bd.headers else ss.headers
    let p := bd.rows.foldl (addScrollRow pos) (ss.entries, ss.seenRows)
    ⟨p.1, p.2, headers⟩

/-- Scroll offsets of the shared document (window viewport, `document.body`,
and each scrollable element by index). -/
structure ScrState where
  windowPos : ℚ
  bodyPos : ℚ
  elemPos : ℕ → ℚ

/-- A scroll target as returned by `findAllScrollableElements`: the window,
`document.body`, or a scrollable element.  `maxScroll` is the static value of
`scrollHeight - clientHeight` (for the window: `documentElement.scrollHeight -
window.innerHeight`); `throwsAt`, when set, is the step at which the
re-extraction at that offset throws. -/
inductive ScrollTarget where
  | window (maxScroll : ℚ) (throwsAt : Option ℕ)
  | body (maxScroll : ℚ) (throwsAt : Option ℕ)
  | elem (idx : ℕ) (maxScroll : ℚ) (throwsAt : Option ℕ)

def targetMaxScroll : ScrollTarget → ℚ
  | .window m _ => m
  | .body m _ => m
  | .elem _ m _ => m

def targetThrowsAt : ScrollTarget → Option ℕ
  | .window _ t => t
  | .body _ t => t
  | .elem _ _ t => t

/-- `isWindow ? window.scrollTo(0, p) : scrollableElement.scrollTop = p`
(`isWindow` is true for the window and for `document.body`). -/
def targetSetPos : ScrollTarget → ℚ → ScrState → ScrState
  | .window _ _, p, st => { st with windowPos := p }
  | .body _ _, p, st => { st with windowPos := p }
  | .elem i _ _, p, st => { st with elemPos := Function.update st.elemPos i p }

/-- One iteration of the `for (let step = 0; step <= 10; step++)` loop:
`none` in the first component records a thrown exception. -/
def scrollStepFn (b : Option TableData) (t : ScrollTarget)
    (acc : Option SState × ScrState) (step : ℕ) : Option SState × ScrState :=
  match acc with
  | (none, s) => (none, s)
  | (some ss, s) =>
    let scrollPosition := targetMaxScroll t / 10 * (step : ℚ)
    let s2 := targetSetPos t scrollPosition s
    if targetThrowsAt t = some step then (none, s2)
    else (some (scrollStepData b scrollPosition ss), s2)

/-- The scroll-step loop (`maxScroll <= 0` breaks out at the first step,
before any scroll write). -/
def runScrollSteps (b : Option TableData) (t : ScrollTarget) (st : ScrState) :
    Option SState × ScrState :=
  if targetMaxScroll t ≤ 0 then (some ⟨[], [], []⟩, st)
  else (List.range 11).foldl (scrollStepFn b t) (some ⟨[], [], []⟩, st)

/-- `VirtualizedTableHandler.performScrollExtraction` for one scroll target. -/
def performScrollExtraction (b : Option TableData) (t : ScrollTarget)
    (st : ScrState) : Option TableData × ScrState :=
  match runScrollSteps b t st with
  | (none, st2) => (none, st2)
  | (some ss, st2) =>
    let rows := (List.insertionSort entryLe ss.entries).map
      (fun r => r.data)
    (some ⟨ss.headers, rows, inferColumnTypes rows⟩, st2)

/-- `if (cleaned && (!bestResult || cleaned.rows.length > bestResult.rows.length))
bestResult = cleaned`. -/
def bestUpdate (best : Option TableData) (cand : Option TableData) :
    Option TableData :=
  match cand with
  | none => best
  | some c =>
    match best with
    | none => some c
    | some b => if c.rows.length > b.rows.length then some c else some b

/-- Environment of one recovery run over a static document. -/
structure VEnv where
  targets : List ScrollTarget
  baseline : Option TableData
  deepResult : Option TableData

/-- The per-target iteration of `extractVirtualizedTableData`: try the scroll
extraction, keep its normalization when it is the larger result, swallow a
thrown exception, and in the `finally` restore `scrollTop` for every target
other than the window (`if (scrollableElement !== window)
scrollableElement.scrollTop = originalScrollTop`, with `originalScrollTop`
read before the `try`). -/
def extractTargetStep (env : VEnv) (acc : Option TableData × ScrState)
    (t : ScrollTarget) : Option TableData × ScrState :=
  let p := performScrollExtraction env.baseline t acc.2
  let restored :=
    match t with
    | .window _ _ => p.2
    | .body _ _ => { p.2 with bodyPos := acc.2.bodyPos }
    | .elem i _ _ =>
        { p.2 with elemPos := Function.update p.2.elemPos i (acc.2.elemPos i) }
  let best :=
    match p.1 with
    | none => acc.1
    | some r => bestUpdate acc.1 (some (normalizeData r))
  (best, restored)

/-- `!bestResult || bestResult.rows.length < 15`. -/
def recoveryNeedsMore (best : Option TableData) : Bool :=
  match best with
  | none => true
  | some bb => bb.rows.length < 15

/-- The alternative-strategy phase of `extractVirtualizedTableData`: when the
best scroll result is missing or has fewer than 15 rows, try the zoom
simulation (whose re-extraction over the static document is the baseline) and
then the deep scan, each kept only when strictly larger after normalization. -/
def recoveryPhase2 (env : VEnv) (best : Option TableData) : Option TableData :=
  if recoveryNeedsMore best then
    bestUpdate (bestUpdate best (normalizeOpt env.baseline))
      (normalizeOpt env.deepResult)
  else best

/-- `bestResult || await this.tableAnalyzer.analyzeImplicitTable(container)`. -/
def recoveryFallback (env : VEnv) (best2 : Option TableData) : Option TableData :=
  match best2 with
  | some b => some b
  | none => env.baseline

/-- `VirtualizedTableHandler.extractVirtualizedTableData`: the scroll pass over
all targets, then the alternative strategies, then the implicit-analysis
fallback, all normalized. -/
def extractVirtualizedTableData (env : VEnv) (st : ScrState) :
    Option TableData × ScrState :=
  let p := env.targets.foldl (extractTargetStep env) (none, st)
  (normalizeOpt (recoveryFallback env (recoveryPhase2 env p.1)), p.2)

/-! ## Concrete example inputs -/

/-- A two-row table whose rows are both header-like (each has a `th` cell). -/
def allHeaderLikeRows : List (List Cell) :=
  [[⟨true, 1, 1, "A"⟩], [⟨true, 1, 1, "B"⟩]]

/-- A scan environment with one implicit candidate (a two-row container). -/
def implicitScanExample : ScanEnv :=
  ⟨[], [⟨7/10, some ⟨["Column 1"], [["a"], ["b"]], inferColumnTypes [["a"], ["b"]]⟩,
    false, none, "ul.lst"⟩]⟩

/-- A scan environment with one explicit table. -/
def explicitScanExample : ScanEnv :=
  ⟨[⟨some ⟨["H"], [["x"]], inferColumnTypes [["x"]]⟩, false, none, "table.main"⟩], []⟩

/-- A one-row baseline that a larger recovery result replaces. -/
def replacementBase : TableData := ⟨["Column 1"], [["a"]], inferColumnTypes [["a"]]⟩

/-- A raw recovery result with three rows, two of them identical. -/
def replacementRaw : TableData :=
  ⟨["Column 1"], [["a"], ["b"], ["b"]], inferColumnTypes [["a"], ["b"], ["b"]]⟩

/-- The all-zero initial scroll state. -/
def scrollStateInit : ScrState := ⟨0, 0, fun _ => 0⟩

/-- A recovery environment whose only scroll target is the window viewport,
with max scroll 100 and no exception. -/
def windowOnlyEnv : VEnv := ⟨[.window 100 none], none, none⟩

/-- A trimmed two-row baseline whose rows differ from the headers. -/
def recoveryWitnessBase : TableData :=
  ⟨["H"], [["a"], ["b"]], inferColumnTypes [["a"], ["b"]]⟩

/-- The all-zero scroll state used for the recovery runs on concrete inputs. -/
def recoveryWitnessSt : ScrState := ⟨0, 0, fun _ => 0⟩

/-- A recovery environment with no scroll targets around
`recoveryWitnessBase`. -/
def recoveryWitnessEnv : VEnv := ⟨[], some recoveryWitnessBase, none⟩

/-- A baseline whose first data row is cell-identical to the header row. -/
def headerDupBaseline : TableData :=
  ⟨["X"], [["X"], ["Y"]], inferColumnTypes [["X"], ["Y"]]⟩

/-- A recovery environment with no scroll targets around
`headerDupBaseline`. -/
def headerDupEnv : VEnv := ⟨[], some headerDupBaseline, none⟩

/-! ## Basic lemmas -/

theorem dropWhile_head_false {α : Type} (p : α → Bool) :
    ∀ (l : List α) (b : α) (t : List α), l.dropWhile p = b :: t → p b = false := by
  intro l
  induction l with
  | nil => intro b t h; simp [List.dropWhile] at h
  | cons a l ih =>
    intro b t h
    by_cases hp : p a
    · rw [List.dropWhile_cons, if_pos hp] at h
      exact ih b t h
    · rw [List.dropWhile_cons, if_neg hp] at h
      rcases h with ⟨rfl, rfl⟩
      simpa using hp

theorem jsTrim_idem (s : String) : jsTrim (jsTrim s) = jsTrim s := by
  have hdata : (jsTrim s).data
      = List.rdropWhile jsWhitespace (s.data.dropWhile jsWhitespace) := rfl
  have h1 : ((jsTrim s).data).dropWhile jsWhitespace = (jsTrim s).data := by
    rw [hdata]
    cases hBc : List.rdropWhile jsWhitespace (s.data.dropWhile jsWhitespace) with
    | nil => rfl
    | cons b B2 =>
      obtain ⟨t, ht⟩ := List.rdropWhile_prefix jsWhitespace
        (s.data.dropWhile jsWhitespace)
      rw [hBc] at ht
      have hA : s.data.dropWhile jsWhitespace = b :: (B2 ++ t) := by
        rw [← ht]; simp
      have hb : jsWhitespace b = false := dropWhile_head_false jsWhitespace s.data b _ hA
      rw [List.dropWhile_cons]
      simp [hb]
  show (⟨List.rdropWhile jsWhitespace (((jsTrim s).data).dropWhile jsWhitespace)⟩ : String)
      = jsTrim s
  rw [h1, hdata, List.rdropWhile_idempotent]
  rfl

/-- `jsTrim` fixes the empty string. -/
theorem jsTrim_nil : jsTrim "" = "" := rfl

theorem mem_of_mem_dedupByKeyGo :
    ∀ (l : List (List String)) (seen : List String) (r : List String),
      r ∈ dedupByKeyGo seen l → r ∈ l := by
  intro l
  induction l with
  | nil => intro seen r h; simp [dedupByKeyGo] at h
  | cons a l ih =>
    intro seen r h
    rw [dedupByKeyGo] at h
    by_cases hk : rowKey a ∈ seen
    · simp only [if_pos hk] at h
      exact List.mem_cons_of_mem a (ih seen r h)
    · simp only [if_neg hk, List.mem_cons] at h
      rcases h with rfl | h
      · exact List.mem_cons_self r l
      · exact List.mem_cons_of_mem a (ih _ r h)

theorem dedupByKeyGo_keys_nodup :
    ∀ (l : List (List String)) (seen : List String),
      ((dedupByKeyGo seen l).map rowKey).Nodup ∧
      ∀ k ∈ (dedupByKeyGo seen l).map rowKey, k ∉ seen := by
  intro l
  induction l with
  | nil => intro seen; simp [dedupByKeyGo]
  | cons a l ih =>
    intro seen
    rw [dedupByKeyGo]
    by_cases hk : rowKey a ∈ seen
    · simpa only [if_pos hk] using ih seen
    · simp only [if_neg hk, List.map_cons, List.nodup_cons, List.mem_cons]
      obtain ⟨ihn, ihs⟩ := ih (rowKey a :: seen)
      refine ⟨⟨fun hmem => ?_, ihn⟩, ?_⟩
      · exact (ihs _ hmem) (List.mem_cons_self _ _)
      · intro k hkmem
        rcases hkmem with rfl | hkmem
        · exact hk
        · intro hks
          exact (ihs k hkmem) (List.mem_cons_of_mem _ hks)

theorem keys_covered_dedupByKeyGo :
    ∀ (l : List (List String)) (seen : List String) (k : String),
      k ∈ l.map rowKey → k ∈ seen ∨ k ∈ (dedupByKeyGo seen l).map rowKey := by
  intro l
  induction l with
  | nil => intro seen k h; simp at h
  | cons a l ih =>
    intro seen k h
    rw [dedupByKeyGo]
    rcases List.mem_cons.mp h with rfl | h
    · by_cases hk : rowKey a ∈ seen
      · exact Or.inl hk
      · simp [if_neg hk]
    · by_cases hk : rowKey a ∈ seen
      · simpa only [if_pos hk] using ih seen k h
      · simp only [if_neg hk, List.map_cons, List.mem_cons]
        rcases ih (rowKey a :: seen) k h with hs | hd
        · rcases List.mem_cons.mp hs with rfl | hs
          · exact Or.inr (Or.inl rfl)
          · exact Or.inl hs
        · exact Or.inr (Or.inr hd)

theorem dedupByKeyGo_eq_self :
    ∀ (l : List (List String)) (seen : List String),
      (l.map rowKey).Nodup → (∀ k ∈ l.map rowKey, k ∉ seen) →
      dedupByKeyGo seen l = l := by
  intro l
  induction l with
  | nil => intro seen _ _; rfl
  | cons a l ih =>
    intro seen hnd hdisj
    have hk : rowKey a ∉ seen := hdisj _ (by simp)
    rw [dedupByKeyGo, if_neg hk]
    congr 1
    simp only [List.map_cons, List.nodup_cons] at hnd
    refine ih _ hnd.2 ?_
    intro k hkmem
    simp only [List.mem_cons]
    rintro (rfl | hks)
    · exact hnd.1 hkmem
    · exact hdisj k (by simp [hkmem]) hks

/-- The keys of a deduplicated row list are distinct. -/
theorem dedupByKey_keys_nodup (l : List (List String)) :
    ((dedupByKey l).map rowKey).Nodup :=
  (dedupByKeyGo_keys_nodup l []).1

/-- Deduplication fixes a list whose keys are already distinct. -/
theorem dedupByKey_eq_self (l : List (List String))
    (h : (l.map rowKey).Nodup) : dedupByKey l = l :=
  dedupByKeyGo_eq_self l [] h (by simp)

/-- Deduplication keeps one representative of every fingerprint: the
fingerprint sets before and after agree. -/
theorem dedupByKey_keys_toFinset (l : List (List String)) :
    ((dedupByKey l).map rowKey).toFinset = (l.map rowKey).toFinset := by
  ext k
  simp only [List.mem_toFinset]
  constructor
  · intro hk
    obtain ⟨r, hr, rfl⟩ := List.mem_map.mp hk
    exact List.mem_map_of_mem rowKey (mem_of_mem_dedupByKeyGo l [] r hr)
  · intro hk
    rcases keys_covered_dedupByKeyGo l [] k hk with hs | hd
    · simp at hs
    · exact hd

/-- The length of the deduplicated list is the number of distinct fingerprints. -/
theorem length_dedupByKey (l : List (List String)) :
    (dedupByKey l).length = ((l.map rowKey).dedup).length := by
  have h1 : (dedupByKey l).length = ((dedupByKey l).map rowKey).length :=
    (List.length_map _ _).symm
  rw [h1, ← List.dedup_eq_self.mpr (dedupByKey_keys_nodup l),
    ← List.card_toFinset, dedupByKey_keys_toFinset, List.card_toFinset]

/-- Any table has at least as many rows as distinct row fingerprints. -/
theorem uniqueRowCount_le_length (d : TableData) :
    uniqueRowCount d ≤ d.rows.length := by
  calc uniqueRowCount d ≤ (d.rows.map rowKey).length :=
        (List.dedup_sublist _).length_le
    _ = d.rows.length := List.length_map _ _

/-- The rows of a normalized result. -/
theorem normalizeData_rows (d : TableData) :
    (normalizeData d).rows =
      dedupByKey
        (if (d.headers.map jsTrim).length > 0 ∧
            (d.rows.map (fun r => r.map jsTrim)).length > 0 then
          (d.rows.map (fun r => r.map jsTrim)).filter
            (fun row => !rowEqHeaders row (d.headers.map jsTrim))
        else d.rows.map (fun r => r.map jsTrim)) := rfl

/-- Normalized results have pairwise distinct rows: the distinct-fingerprint
count equals the plain row count. -/
theorem uniqueRowCount_normalizeData (d : TableData) :
    uniqueRowCount (normalizeData d) = (normalizeData d).rows.length := by
  rw [uniqueRowCount, normalizeData_rows,
    List.dedup_eq_self.mpr (dedupByKey_keys_nodup _), List.length_map]

/-! ## Claim C5: virtualization-detection policy -/

/-- C5: for a native table element the predicate holds iff at least one strong
signal fired (the weak many-row-like-descendants signal alone never suffices);
for any other container it holds iff the combined strong-plus-weak signal
count is at least 2. -/
theorem detectVirtualizedTable_policy (s : VSignals) :
    (s.isPlainTable = true →
      (detectVirtualizedTable s = true ↔ 1 ≤ strongSignals s)) ∧
    (s.isPlainTable = false →
      (detectVirtualizedTable s = true ↔ 2 ≤ strongSignals s + weakSignals s)) ∧
    (s.isPlainTable = true → strongSignals s = 0 →
      detectVirtualizedTable s = false) := by
  refine ⟨fun h => ?_, fun h => ?_, fun h h0 => ?_⟩
  · simp [detectVirtualizedTable, h]
  · simp [detectVirtualizedTable, h]
  · simp [detectVirtualizedTable, h, h0]

theorem detectVirtualizedTable_policy_witness :
    (detectVirtualizedTable ⟨true, true, false, false, false, false, false⟩ = true ↔
      1 ≤ strongSignals ⟨true, true, false, false, false, false, false⟩) ∧
    (detectVirtualizedTable ⟨false, true, false, false, false, false, true⟩ = true ↔
      2 ≤ strongSignals ⟨false, true, false, false, false, false, true⟩ +
        weakSignals ⟨false, true, false, false, false, false, true⟩) ∧
    detectVirtualizedTable ⟨true, false, false, false, false, false, true⟩ = false :=
  ⟨(detectVirtualizedTable_policy _).1 rfl,
   (detectVirtualizedTable_policy _).2.1 rfl,
   (detectVirtualizedTable_policy _).2.2 rfl rfl⟩

/-! ## Claim C4: header detection can consume every row -/

/-- C4 counterexample: on a table whose every row looks header-like,
`detectHeaderRowsEnd` classifies all rows as header rows (no fall back to a
single header row), and the extracted data region is empty. -/
theorem detectHeaderRowsEnd_all_rows_example :
    detectHeaderRowsEnd allHeaderLikeRows = allHeaderLikeRows.length ∧
    allHeaderLikeRows.length = 2 ∧
    (analyzeExplicitTable allHeaderLikeRows).rows = [] := by
  refine ⟨?_, rfl, ?_⟩ <;> decide

theorem detectHeaderRowsEndGo_le :
    ∀ (l : List (ℕ × List Cell)) (count B : ℕ),
      (∀ p ∈ l, p.1 + 1 ≤ B) → count ≤ B → detectHeaderRowsEndGo l count ≤ B := by
  intro l
  induction l with
  | nil => intro count B _ hc; exact hc
  | cons p rest ih =>
    intro count B hB hc
    obtain ⟨i, cells⟩ := p
    rw [detectHeaderRowsEndGo]
    by_cases h0 : cells.length = 0
    · rw [if_pos h0]
      exact ih count B (fun q hq => hB q (List.mem_cons_of_mem _ hq)) hc
    · rw [if_neg h0]
      by_cases hlike : isHeaderLikeRow cells
      · rw [if_pos hlike]
        exact ih (i + 1) B (fun q hq => hB q (List.mem_cons_of_mem _ hq))
          (hB (i, cells) (List.mem_cons_self _ _))
      · rw [if_neg hlike]
        by_cases hcnt : count > 0
        · rw [if_pos hcnt]; exact hc
        · rw [if_neg hcnt]
          exact ih count B (fun q hq => hB q (List.mem_cons_of_mem _ hq)) hc

/-- C4 amended: header detection scans only the first six rows, so the header
count never exceeds `min(rowCount, 6)`; in particular a table with at least
seven rows always keeps a non-empty data region.  (It does NOT fall back to a
single header row when every row looks header-like: a table of up to six
all-header-like rows loses its entire data region, per the counterexample.) -/
theorem detectHeaderRowsEnd_bounded (rows : List (List Cell)) :
    detectHeaderRowsEnd rows ≤ min rows.length 6 ∧
    (6 < rows.length → detectHeaderRowsEnd rows < rows.length) := by
  have hgo : detectHeaderRowsEndGo (rows.take 6).enum 0 ≤ min rows.length 6 := by
    apply detectHeaderRowsEndGo_le
    · intro p hp
      have := List.fst_lt_of_mem_enum hp
      have hlen : (rows.take 6).length = min rows.length 6 := by
        simp [List.length_take, Nat.min_comm]
      omega
    · exact Nat.zero_le _
  have hmain : detectHeaderRowsEnd rows ≤ min rows.length 6 := by
    rw [detectHeaderRowsEnd]
    by_cases hz : detectHeaderRowsEndGo (rows.take 6).enum 0 = 0
    · rw [if_pos hz]
      cases hr : rows.head? with
      | none => simp
      | some firstRow =>
        have hne : rows ≠ [] := by
          intro h; rw [h] at hr; simp at hr
        have h1 : 1 ≤ rows.length := by
          cases rows with
          | nil => exact absurd rfl hne
          | cons a l => simp
        show (if (firstRow.any fun cell => cell.isTh) = true then 1 else 0) ≤
          min rows.length 6
        by_cases hth : firstRow.any (fun cell => cell.isTh)
        · rw [if_pos hth]; omega
        · rw [if_neg hth]; exact Nat.zero_le _
    · rw [if_neg hz]; exact hgo
  exact ⟨hmain, fun h6 => lt_of_le_of_lt hmain (by omega)⟩

theorem detectHeaderRowsEnd_bounded_witness :
    detectHeaderRowsEnd (List.replicate 7 [(⟨true, 1, 1, "A"⟩ : Cell)]) ≤
      min (List.replicate 7 [(⟨true, 1, 1, "A"⟩ : Cell)]).length 6 ∧
    detectHeaderRowsEnd (List.replicate 7 [(⟨true, 1, 1, "A"⟩ : Cell)]) <
      (List.replicate 7 [(⟨true, 1, 1, "A"⟩ : Cell)]).length :=
  ⟨(detectHeaderRowsEnd_bounded _).1,
   (detectHeaderRowsEnd_bounded _).2 (by decide)⟩

/-! ## Claims C7 and C8: column type inference -/

theorem getD_map_range {α : Type} (f : ℕ → α) (n col : ℕ) (d : α) (h : col < n) :
    ((List.range n).map f).getD col d = f col := by
  rw [List.getD_eq_getElem?_getD, List.getElem?_map, List.getElem?_range h]
  rfl

theorem typeTests_weight_bounds : ∀ t ∈ typeTests, 0 ≤ t.weight ∧ t.weight ≤ 1 := by
  intro t ht
  fin_cases ht <;> exact ⟨by norm_num, by norm_num⟩

theorem scoreOf_nonneg (t : TypeTest) (values : List String) (hw : 0 ≤ t.weight) :
    0 ≤ scoreOf t values :=
  mul_nonneg (div_nonneg (Nat.cast_nonneg _) (Nat.cast_nonneg _)) hw

theorem scoreOf_le_one (t : TypeTest) (values : List String)
    (hw0 : 0 ≤ t.weight) (hw1 : t.weight ≤ 1) : scoreOf t values ≤ 1 := by
  rw [scoreOf]
  rcases Nat.eq_zero_or_pos values.length with hz | hp
  · rw [List.length_eq_zero] at hz
    subst hz
    simp
  · have hfrac : ((values.filter (fun v => rxMatch t.test (jsTrim v))).length : ℚ)
        / (values.length : ℚ) ≤ 1 := by
      rw [div_le_one (by exact_mod_cast hp)]
      exact_mod_cast List.length_filter_le _ _
    have hfrac0 : (0 : ℚ) ≤ ((values.filter (fun v => rxMatch t.test (jsTrim v))).length : ℚ)
        / (values.length : ℚ) :=
      div_nonneg (Nat.cast_nonneg _) (Nat.cast_nonneg _)
    calc ((values.filter (fun v => rxMatch t.test (jsTrim v))).length : ℚ)
          / (values.length : ℚ) * t.weight ≤ 1 * 1 :=
        mul_le_mul hfrac hw1 hw0 (by norm_num)
      _ = 1 := by norm_num

theorem foldl_typeTestStep_bounds (values : List String) :
    ∀ (l : List TypeTest) (b : TypeGuess),
      (∀ t ∈ l, 0 ≤ t.weight ∧ t.weight ≤ 1) →
      0 ≤ b.confidence → b.confidence ≤ 1 →
      0 ≤ (l.foldl (typeTestStep values) b).confidence ∧
        (l.foldl (typeTestStep values) b).confidence ≤ 1 := by
  intro l
  induction l with
  | nil => intro b _ h0 h1; exact ⟨h0, h1⟩
  | cons t rest ih =>
    intro b hw h0 h1
    rw [List.foldl_cons]
    have hwt := hw t (List.mem_cons_self _ _)
    have hw' := fun u hu => hw u (List.mem_cons_of_mem _ hu)
    rw [typeTestStep]
    by_cases hc : scoreOf t values > b.confidence ∧ scoreOf t values > 7/10
    · rw [if_pos hc]
      exact ih _ hw' (scoreOf_nonneg t values hwt.1) (scoreOf_le_one t values hwt.1 hwt.2)
    · rw [if_neg hc]
      exact ih _ hw' h0 h1

theorem inferSingleColumnType_conf_bounds (values : List String) :
    0 ≤ (inferSingleColumnType values).confidence ∧
    (inferSingleColumnType values).confidence ≤ 1 := by
  rw [inferSingleColumnType]
  by_cases h0 : values.length = 0
  · rw [if_pos h0]
    exact ⟨le_refl 0, by norm_num⟩
  · rw [if_neg h0]
    exact foldl_typeTestStep_bounds values typeTests ⟨"text", 0⟩
      typeTests_weight_bounds (le_refl 0) (by norm_num)

theorem inferColumnTypes_getD (rows : List (List String)) (col : ℕ)
    (h : col < (inferColumnTypes rows).length) :
    (inferColumnTypes rows).getD col ⟨"", 0⟩ =
      inferSingleColumnType ((rows.map (fun row => row.getD col "")).filter
        (fun val => (jsTrim val).length > 0)) := by
  by_cases h0 : rows.length = 0
  · rw [inferColumnTypes, if_pos h0] at h
    exact absurd h (by simp)
  · rw [inferColumnTypes, if_neg h0] at h ⊢
    rw [List.length_map, List.length_range] at h
    exact getD_map_range _ _ _ _ h

/-- C8: a column whose values are all empty or whitespace-only is typed
`{empty, 0}`, and every column's confidence lies in `[0, 1]`. -/
theorem inferColumnTypes_empty_and_bounds (rows : List (List String)) (col : ℕ)
    (h : col < (inferColumnTypes rows).length) :
    (0 ≤ ((inferColumnTypes rows).getD col ⟨"", 0⟩).confidence ∧
      ((inferColumnTypes rows).getD col ⟨"", 0⟩).confidence ≤ 1) ∧
    ((∀ r ∈ rows, jsTrim (r.getD col "") = "") →
      (inferColumnTypes rows).getD col ⟨"", 0⟩ = ⟨"empty", 0⟩) := by
  rw [inferColumnTypes_getD rows col h]
  refine ⟨inferSingleColumnType_conf_bounds _, fun hall => ?_⟩
  have hnil : (rows.map (fun row => row.getD col "")).filter
      (fun val => (jsTrim val).length > 0) = [] := by
    rw [List.filter_eq_nil_iff]
    intro a ha
    obtain ⟨r, hr, rfl⟩ := List.mem_map.mp ha
    have h0 := hall r hr
    rw [List.getD_eq_getElem?_getD] at h0
    simp [h0]
  rw [hnil]
  rfl

theorem inferColumnTypes_empty_and_bounds_witness :
    (0 ≤ ((inferColumnTypes [[" "]]).getD 0 ⟨"", 0⟩).confidence ∧
      ((inferColumnTypes [[" "]]).getD 0 ⟨"", 0⟩).confidence ≤ 1) ∧
    (inferColumnTypes [[" "]]).getD 0 ⟨"", 0⟩ = ⟨"empty", 0⟩ := by
  have h := inferColumnTypes_empty_and_bounds [[" "]] 0 (by decide)
  exact ⟨h.1, h.2 (by decide)⟩

theorem foldl_typeTestStep_spec (values : List String) :
    ∀ (l : List TypeTest) (b : TypeGuess),
      (l.foldl (typeTestStep values) b = b ∧
        ∀ t ∈ l, scoreOf t values ≤ max b.confidence (7/10)) ∨
      (∃ t ∈ l, l.foldl (typeTestStep values) b = ⟨t.type, scoreOf t values⟩ ∧
        7/10 < scoreOf t values ∧ b.confidence < scoreOf t values ∧
        ∀ u ∈ l, scoreOf u values ≤ scoreOf t values) := by
  intro l
  induction l with
  | nil => intro b; left; exact ⟨rfl, by simp⟩
  | cons t rest ih =>
    intro b
    rw [List.foldl_cons, typeTestStep]
    by_cases hc : scoreOf t values > b.confidence ∧ scoreOf t values > 7/10
    · rw [if_pos hc]
      rcases ih ⟨t.type, scoreOf t values⟩ with ⟨heq, hall⟩ | ⟨u, hu, heq, h07, hgt, hmax⟩
      · right
        refine ⟨t, List.mem_cons_self _ _, heq, hc.2, hc.1, ?_⟩
        intro u hu
        rcases List.mem_cons.mp hu with rfl | hu
        · exact le_refl _
        · have := hall u hu
          have hmax : max (scoreOf t values) (7/10 : ℚ) = scoreOf t values :=
            max_eq_left (le_of_lt hc.2)
          rw [TypeGuess.mk.injEq] at *
          simpa [hmax] using this
      · right
        refine ⟨u, List.mem_cons_of_mem _ hu, heq, h07, lt_trans hc.1 hgt, ?_⟩
        intro w hw
        rcases List.mem_cons.mp hw with rfl | hw
        · exact le_of_lt hgt
        · exact hmax w hw
    · rw [if_neg hc]
      have hle : scoreOf t values ≤ max b.confidence (7/10) := by
        rcases not_and_or.mp hc with hn | hn
        · exact le_trans (not_lt.mp hn) (le_max_left _ _)
        · exact le_trans (not_lt.mp hn) (le_max_right _ _)
      rcases ih b with ⟨heq, hall⟩ | ⟨u, hu, heq, h07, hgt, hmax⟩
      · left
        refine ⟨heq, fun w hw => ?_⟩
        rcases List.mem_cons.mp hw with rfl | hw
        · exact hle
        · exact hall w hw
      · right
        refine ⟨u, List.mem_cons_of_mem _ hu, heq, h07, hgt, ?_⟩
        intro w hw
        rcases List.mem_cons.mp hw with rfl | hw
        · calc scoreOf w values ≤ max b.confidence (7/10) := hle
            _ ≤ scoreOf u values := max_le (le_of_lt hgt) (le_of_lt h07)
        · exact hmax w hw

theorem currency_scenario :
    inferSingleColumnType ["$10.00", "$20.00"] = ⟨"currency", 9/10⟩ := by
  have s1 : scoreOf ⟨"number", numberRx, 1⟩ ["$10.00", "$20.00"] = 0 := by
    rw [scoreOf, show (["$10.00", "$20.00"].filter
      (fun v => rxMatch numberRx (jsTrim v))).length = 0 from by decide]
    norm_num
  have s2 : scoreOf ⟨"currency", currencyRx, 9/10⟩ ["$10.00", "$20.00"] = 9/10 := by
    rw [scoreOf, show (["$10.00", "$20.00"].filter
      (fun v => rxMatch currencyRx (jsTrim v))).length = 2 from by decide]
    norm_num
  have s3 : scoreOf ⟨"percentage", percentageRx, 9/10⟩ ["$10.00", "$20.00"] = 0 := by
    rw [scoreOf, show (["$10.00", "$20.00"].filter
      (fun v => rxMatch percentageRx (jsTrim v))).length = 0 from by decide]
    norm_num
  have s4 : scoreOf ⟨"date", dateRx, 9/10⟩ ["$10.00", "$20.00"] = 0 := by
    rw [scoreOf, show (["$10.00", "$20.00"].filter
      (fun v => rxMatch dateRx (jsTrim v))).length = 0 from by decide]
    norm_num
  have s5 : scoreOf ⟨"time", timeRx, 8/10⟩ ["$10.00", "$20.00"] = 0 := by
    rw [scoreOf, show (["$10.00", "$20.00"].filter
      (fun v => rxMatch timeRx (jsTrim v))).length = 0 from by decide]
    norm_num
  have s6 : scoreOf ⟨"email", emailRx, 8/10⟩ ["$10.00", "$20.00"] = 0 := by
    rw [scoreOf, show (["$10.00", "$20.00"].filter
      (fun v => rxMatch emailRx (jsTrim v))).length = 0 from by decide]
    norm_num
  have s7 : scoreOf ⟨"url", urlRx, 8/10⟩ ["$10.00", "$20.00"] = 0 := by
    rw [scoreOf, show (["$10.00", "$20.00"].filter
      (fun v => rxMatch urlRx (jsTrim v))).length = 0 from by decide]
    norm_num
  have s8 : scoreOf ⟨"phone", phoneRx, 7/10⟩ ["$10.00", "$20.00"] = 0 := by
    rw [scoreOf, show (["$10.00", "$20.00"].filter
      (fun v => rxMatch phoneRx (jsTrim v))).length = 0 from by decide]
    norm_num
  have s9 : scoreOf ⟨"boolean", booleanRx, 6/10⟩ ["$10.00", "$20.00"] = 0 := by
    rw [scoreOf, show (["$10.00", "$20.00"].filter
      (fun v => rxMatch booleanRx (jsTrim v))).length = 0 from by decide]
    norm_num
  rw [inferSingleColumnType, if_neg (by decide)]
  simp only [typeTests, List.foldl_cons, List.foldl_nil, typeTestStep,
    s1, s2, s3, s4, s5, s6, s7, s8, s9]
  norm_num

/-- C7: on a non-empty list of non-empty values, the classifier computes
`matchFraction * weight` for each of the nine weighted type tests and returns
the best-scoring candidate only when its score exceeds 0.7, otherwise
`{text, 0}`; in particular `["$10.00", "$20.00"]` is typed `currency` with
confidence `0.9 ≥ 0.7`. -/
theorem inferSingleColumnType_weighted_best (values : List String)
    (h1 : values ≠ []) (_h2 : ∀ v ∈ values, v ≠ "") :
    ((inferSingleColumnType values = ⟨"text", 0⟩ ∧
        ∀ t ∈ typeTests, scoreOf t values ≤ 7/10) ∨
      (∃ t ∈ typeTests, inferSingleColumnType values = ⟨t.type, scoreOf t values⟩ ∧
        7/10 < scoreOf t values ∧
        ∀ u ∈ typeTests, scoreOf u values ≤ scoreOf t values)) ∧
    inferSingleColumnType ["$10.00", "$20.00"] = ⟨"currency", 9/10⟩ ∧
    (7/10 : ℚ) ≤ 9/10 := by
  refine ⟨?_, currency_scenario, by norm_num⟩
  have hlen : ¬values.length = 0 := by simpa [List.length_eq_zero] using h1
  rw [inferSingleColumnType, if_neg hlen]
  rcases foldl_typeTestStep_spec values typeTests ⟨"text", 0⟩ with
    ⟨heq, hall⟩ | ⟨t, ht, heq, h07, _, hmax⟩
  · left
    refine ⟨heq, fun t hterm => ?_⟩
    have := hall t hterm
    rwa [show max (0 : ℚ) (7/10) = 7/10 from max_eq_right (by norm_num)] at this
  · right
    exact ⟨t, ht, heq, h07, hmax⟩

theorem inferSingleColumnType_weighted_best_witness :
    inferSingleColumnType ["$10.00", "$20.00"] = ⟨"currency", 9/10⟩ :=
  (inferSingleColumnType_weighted_best ["$10.00", "$20.00"] (by decide)
    (by decide)).2.1

/-! ## Claim C6: multi-level header flattening -/

theorem foldl_columnParts_invariant (col : ℕ) :
    ∀ (g : List (List (Option GridCell))) (acc : List String),
      acc.Nodup → (∀ x ∈ acc, x ≠ "") →
      (g.foldl (columnPartsStep col) acc).Nodup ∧
        ∀ x ∈ g.foldl (columnPartsStep col) acc, x ≠ "" := by
  intro g
  induction g with
  | nil => intro acc h1 h2; exact ⟨h1, h2⟩
  | cons row g ih =>
    intro acc h1 h2
    rw [List.foldl_cons]
    have hstep : (columnPartsStep col acc row).Nodup ∧
        ∀ x ∈ columnPartsStep col acc row, x ≠ "" := by
      cases hrow : row.getD col none with
      | none => rw [columnPartsStep, hrow]; exact ⟨h1, h2⟩
      | some cell =>
        rw [columnPartsStep, hrow]
        show (if cell.text ≠ "" ∧ cell.text ∉ acc then acc ++ [cell.text]
            else acc).Nodup ∧
          ∀ x ∈ (if cell.text ≠ "" ∧ cell.text ∉ acc then acc ++ [cell.text]
            else acc), x ≠ ""
        by_cases hc : cell.text ≠ "" ∧ cell.text ∉ acc
        · rw [if_pos hc]
          refine ⟨?_, ?_⟩
          · rw [List.nodup_append]
            refine ⟨h1, List.nodup_singleton _, fun a ha hb => ?_⟩
            rw [List.mem_singleton] at hb
            exact hc.2 (hb ▸ ha)
          · intro x hx
            rcases List.mem_append.mp hx with hx | hx
            · exact h2 x hx
            · rw [List.mem_singleton] at hx
              rw [hx]
              exact hc.1
        · rw [if_neg hc]
          exact ⟨h1, h2⟩
    exact ih _ hstep.1 hstep.2

theorem intercalate_go_length (sep : String) :
    ∀ (l : List String) (acc : String),
      acc.length ≤ (String.intercalate.go acc sep l).length := by
  intro l
  induction l with
  | nil => intro acc; simp [String.intercalate.go]
  | cons b bs ih =>
    intro acc
    have h := ih (acc ++ sep ++ b)
    have hle : acc.length ≤ (acc ++ sep ++ b).length := by
      rw [String.length_append, String.length_append]
      omega
    calc acc.length ≤ (acc ++ sep ++ b).length := hle
      _ ≤ (String.intercalate.go (acc ++ sep ++ b) sep bs).length := h
      _ = (String.intercalate.go acc sep (b :: bs)).length := by
          rw [String.intercalate.go]

theorem intercalate_eq_empty_iff (parts : List String)
    (hne : ∀ x ∈ parts, x ≠ "") :
    (String.intercalate " - " parts = "" ↔ parts = []) := by
  constructor
  · intro h
    cases hp : parts with
    | nil => rfl
    | cons a l =>
      exfalso
      rw [hp] at h
      have hlen := intercalate_go_length " - " l a
      have hgo : String.intercalate " - " (a :: l) = String.intercalate.go a " - " l := rfl
      rw [← hgo, h] at hlen
      have ha := hne a (hp ▸ List.mem_cons_self a l)
      apply ha
      have hz : a.length = 0 := Nat.le_zero.mp (by simpa using hlen)
      cases a with
      | mk data =>
        have : data = [] := List.length_eq_zero.mp hz
        rw [this]
  · rintro rfl; rfl

theorem generateFinalHeaders_getD (grid : List (List (Option GridCell)))
    (col : ℕ) (hg : ¬grid.length = 0) (hc : col < (grid.headD []).length) :
    (generateFinalHeaders grid).getD col "" =
      (if String.intercalate " - " (columnParts grid col) = "" then
        "Column " ++ toString (col + 1)
       else String.intercalate " - " (columnParts grid col)) := by
  rw [generateFinalHeaders, if_neg hg]
  exact getD_map_range _ _ _ _ hc

/-- C6: multi-level header flattening joins, per grid column, the distinct
order-preserved header texts with `" - "`, names a textless column
`"Column {n}"` (1-indexed), and on the 2-row header scenario
(`"Revenue"` with colspan 2 over `["Q1", "Q2"]`) yields exactly
`["Revenue - Q1", "Revenue - Q2"]`. -/
theorem processMultiLevelHeaders_flatten (grid : List (List (Option GridCell)))
    (col : ℕ) (hg : ¬grid.length = 0) (hc : col < (grid.headD []).length) :
    ((generateFinalHeaders grid).getD col "" =
        (if columnParts grid col = [] then "Column " ++ toString (col + 1)
         else String.intercalate " - " (columnParts grid col)) ∧
      (columnParts grid col).Nodup) ∧
    processMultiLevelHeaders
        [[⟨true, 2, 1, "Revenue"⟩], [⟨true, 1, 1, "Q1"⟩, ⟨true, 1, 1, "Q2"⟩]] =
      ["Revenue - Q1", "Revenue - Q2"] := by
  have hinv := foldl_columnParts_invariant col grid [] (List.nodup_nil) (by simp)
  refine ⟨⟨?_, hinv.1⟩, by decide⟩
  rw [generateFinalHeaders_getD grid col hg hc]
  have hbr := intercalate_eq_empty_iff (columnParts grid col) hinv.2
  by_cases hp : columnParts grid col = []
  · rw [if_pos hp, if_pos (hbr.mpr hp)]
  · rw [if_neg hp, if_neg (fun h => hp (hbr.mp h))]

theorem processMultiLevelHeaders_flatten_witness :
    processMultiLevelHeaders
        [[⟨true, 2, 1, "Revenue"⟩], [⟨true, 1, 1, "Q1"⟩, ⟨true, 1, 1, "Q2"⟩]] =
      ["Revenue - Q1", "Revenue - Q2"] :=
  (processMultiLevelHeaders_flatten [[some ⟨"Revenue", true⟩]] 0 (by decide)
    (by decide)).2

/-! ## Claims C9, C10 and C2: the scan orchestrator -/

theorem chooseData_rows_ge (isVirt : Bool) (base : TableData)
    (enhanced : Option TableData) :
    base.rows.length ≤ (chooseData isVirt base enhanced).rows.length := by
  cases isVirt with
  | false => simp [chooseData]
  | true =>
    cases enhanced with
    | none => simp [chooseData]
    | some enh =>
      show base.rows.length ≤
        (if enh.rows.length > base.rows.length then enh else base).rows.length
      by_cases h : enh.rows.length > base.rows.length
      · rw [if_pos h]; exact le_of_lt h
      · rw [if_neg h]

theorem getD_mem_of_lt {α : Type} (l : List α) (n : ℕ) (d : α)
    (h : n < l.length) : l.getD n d ∈ l := by
  rw [List.getD_eq_getElem?_getD, List.getElem?_eq_getElem h]
  exact List.getElem_mem h

theorem records_processExplicit (st : ScanState) (e : ExplicitEntry) (r : Record)
    (hr : r ∈ (processExplicitEntry st e).records) :
    r ∈ st.records ∨
      (r.type = "explicit" ∧ r.confidence = 95/100 ∧ 1 ≤ r.data.rows.length) := by
  obtain ⟨bopt, isVirt, enhRaw, sel⟩ := e
  cases bopt with
  | none => exact Or.inl hr
  | some base =>
    simp only [processExplicitEntry] at hr
    by_cases h0 : base.rows.length = 0
    · rw [if_pos h0] at hr; exact Or.inl hr
    · rw [if_neg h0] at hr
      by_cases hsig : createTableContentSignature
          (chooseData isVirt base (normalizeOpt enhRaw)) ∈ st.seen
      · rw [if_pos hsig] at hr; exact Or.inl hr
      · rw [if_neg hsig] at hr
        rcases List.mem_append.mp hr with hr | hr
        · exact Or.inl hr
        · rw [List.mem_singleton] at hr
          subst hr
          refine Or.inr ⟨rfl, rfl, ?_⟩
          show 1 ≤ (chooseData isVirt base (normalizeOpt enhRaw)).rows.length
          have hge := chooseData_rows_ge isVirt base (normalizeOpt enhRaw)
          omega

theorem records_processImplicit (st : ScanState) (e : ImplicitEntry) (r : Record)
    (hr : r ∈ (processImplicitEntry st e).records) :
    r ∈ st.records ∨
      (r.type = "implicit" ∧ r.confidence = e.confidence ∧
        2 ≤ r.data.rows.length) := by
  obtain ⟨conf, bopt, isVirt, enhRaw, sel⟩ := e
  cases bopt with
  | none => exact Or.inl hr
  | some base =>
    simp only [processImplicitEntry] at hr
    by_cases h0 : base.rows.length ≤ 1
    · rw [if_pos h0] at hr; exact Or.inl hr
    · rw [if_neg h0] at hr
      by_cases hsig : createTableContentSignature
          (chooseData isVirt base (normalizeOpt enhRaw)) ∈ st.seen
      · rw [if_pos hsig] at hr; exact Or.inl hr
      · rw [if_neg hsig] at hr
        rcases List.mem_append.mp hr with hr | hr
        · exact Or.inl hr
        · rw [List.mem_singleton] at hr
          subst hr
          refine Or.inr ⟨rfl, rfl, ?_⟩
          show 2 ≤ (chooseData isVirt base (normalizeOpt enhRaw)).rows.length
          have hge := chooseData_rows_ge isVirt base (normalizeOpt enhRaw)
          omega

theorem records_foldl_explicits :
    ∀ (l : List ExplicitEntry) (st : ScanState) (r : Record),
      r ∈ (l.foldl processExplicitEntry st).records →
      r ∈ st.records ∨
        (r.type = "explicit" ∧ r.confidence = 95/100 ∧ 1 ≤ r.data.rows.length) := by
  intro l
  induction l with
  | nil => intro st r hr; exact Or.inl hr
  | cons e l ih =>
    intro st r hr
    rw [List.foldl_cons] at hr
    rcases ih _ r hr with hr2 | h
    · exact records_processExplicit st e r hr2
    · exact Or.inr h

theorem records_foldl_implicits :
    ∀ (l : List ImplicitEntry) (st : ScanState) (r : Record),
      r ∈ (l.foldl processImplicitEntry st).records →
      r ∈ st.records ∨
        (r.type = "implicit" ∧ 2 ≤ r.data.rows.length ∧
          ∃ e ∈ l, r.confidence = e.confidence) := by
  intro l
  induction l with
  | nil => intro st r hr; exact Or.inl hr
  | cons e l ih =>
    intro st r hr
    rw [List.foldl_cons] at hr
    rcases ih _ r hr with hr2 | h
    · rcases records_processImplicit st e r hr2 with hr3 | h
      · exact Or.inl hr3
      · exact Or.inr ⟨h.1, h.2.2, e, List.mem_cons_self _ _, h.2.1⟩
    · exact Or.inr ⟨h.1, h.2.1, h.2.2.elim (fun e' he' =>
        ⟨e', List.mem_cons_of_mem _ he'.1, he'.2⟩)⟩

/-- C9: every implicit table record emitted by a scan carries at least two
data rows; candidates whose baseline extraction has one row or none never
produce a record. -/
theorem implicit_records_have_two_rows (env : ScanEnv) (r : Record)
    (hr : r ∈ (scanAndSendTables env).records) (ht : r.type = "implicit") :
    2 ≤ r.data.rows.length := by
  rw [scanAndSendTables] at hr
  rcases records_foldl_implicits env.implicits _ r hr with hr1 | h
  · rcases records_foldl_explicits env.explicits _ r hr1 with hr2 | h
    · simp at hr2
    · exact absurd (ht.symm.trans h.1) (by decide)
  · exact h.2.1

theorem implicit_records_have_two_rows_witness :
    2 ≤ ((scanAndSendTables implicitScanExample).records.getD 0
      ⟨0, "", 0, "", ⟨[], [], []⟩, ""⟩).data.rows.length := by
  apply implicit_records_have_two_rows implicitScanExample
  · exact getD_mem_of_lt _ 0 _ (by decide)
  · decide

/-- C10: every explicit record emitted by a scan carries the constant
confidence 0.95; an implicit record's confidence is the scored candidate's
confidence. -/
theorem explicit_records_confidence (env : ScanEnv) (r : Record)
    (hr : r ∈ (scanAndSendTables env).records) :
    (r.type = "explicit" → r.confidence = 95/100) ∧
    (r.type = "implicit" → ∃ e ∈ env.implicits, r.confidence = e.confidence) := by
  rw [scanAndSendTables] at hr
  rcases records_foldl_implicits env.implicits _ r hr with hr1 | h
  · rcases records_foldl_explicits env.explicits _ r hr1 with hr2 | h
    · simp at hr2
    · exact ⟨fun _ => h.2.1, fun ht => absurd (ht.symm.trans h.1) (by decide)⟩
  · exact ⟨fun ht => absurd (ht.symm.trans h.1) (by decide), fun _ => h.2.2⟩

theorem explicit_records_confidence_witness :
    ((scanAndSendTables explicitScanExample).records.getD 0
      ⟨0, "", 0, "", ⟨[], [], []⟩, ""⟩).confidence = 95/100 := by
  refine (explicit_records_confidence explicitScanExample _
    (getD_mem_of_lt _ 0 _ (by decide))).1 ?_
  decide

/-- C2: whenever the orchestrator's replacement test makes it keep the
recovery result instead of the baseline (for a candidate the virtualization
predicate accepted), the kept result has strictly more unique rows — distinct
pipe-joined row fingerprints — than the baseline: the recovery output is
always `_normalizeData`-deduplicated, so its raw row count equals its unique
row count and exceeds the baseline's raw (hence unique) row count. -/
theorem replacement_implies_more_unique_rows (isVirt : Bool)
    (base raw : TableData)
    (h : chooseData isVirt base (normalizeOpt (some raw)) ≠ base) :
    uniqueRowCount base <
      uniqueRowCount (chooseData isVirt base (normalizeOpt (some raw))) ∧
    chooseData isVirt base (normalizeOpt (some raw)) = normalizeData raw := by
  cases isVirt with
  | false => exact absurd rfl h
  | true =>
    have hcd : chooseData true base (normalizeOpt (some raw)) =
        if (normalizeData raw).rows.length > base.rows.length then
          normalizeData raw
        else base := rfl
    rw [hcd] at h ⊢
    by_cases hlen : (normalizeData raw).rows.length > base.rows.length
    · rw [if_pos hlen] at h ⊢
      refine ⟨?_, rfl⟩
      rw [uniqueRowCount_normalizeData]
      exact lt_of_le_of_lt (uniqueRowCount_le_length base) hlen
    · rw [if_neg hlen] at h
      exact absurd rfl h

theorem replacement_implies_more_unique_rows_witness :
    uniqueRowCount replacementBase <
      uniqueRowCount (chooseData true replacementBase
        (normalizeOpt (some replacementRaw))) :=
  (replacement_implies_more_unique_rows true replacementBase replacementRaw
    (fun heq => absurd (congrArg TableData.rows heq) (by decide))).1

/-! ## Claim C1: scroll offset restoration -/

theorem targetSetPos_bodyPos (t : ScrollTarget) (p : ℚ) (st : ScrState) :
    (targetSetPos t p st).bodyPos = st.bodyPos := by
  cases t <;> rfl

theorem scrollStepFn_snd (b : Option TableData) (t : ScrollTarget)
    (acc : Option SState × ScrState) (s : ℕ) :
    (scrollStepFn b t acc s).2 =
      (match acc.1 with
       | none => acc.2
       | some _ => targetSetPos t (targetMaxScroll t / 10 * (s : ℚ)) acc.2) := by
  obtain ⟨fst, snd⟩ := acc
  cases fst with
  | none => rfl
  | some ss =>
    by_cases h : targetThrowsAt t = some s
    · simp [scrollStepFn, h]
    · simp [scrollStepFn, h]

theorem foldl_scrollStepFn_bodyPos (b : Option TableData) (t : ScrollTarget) :
    ∀ (steps : List ℕ) (acc : Option SState × ScrState),
      ((steps.foldl (scrollStepFn b t) acc).2).bodyPos = acc.2.bodyPos := by
  intro steps
  induction steps with
  | nil => intro acc; rfl
  | cons s steps ih =>
    intro acc
    rw [List.foldl_cons, ih, scrollStepFn_snd]
    obtain ⟨fst, snd⟩ := acc
    cases fst with
    | none => rfl
    | some ss => exact targetSetPos_bodyPos t _ snd

theorem foldl_scrollStepFn_elemPos (b : Option TableData) (t : ScrollTarget)
    (i : ℕ) (hpres : ∀ p st, (targetSetPos t p st).elemPos i = st.elemPos i) :
    ∀ (steps : List ℕ) (acc : Option SState × ScrState),
      ((steps.foldl (scrollStepFn b t) acc).2).elemPos i = acc.2.elemPos i := by
  intro steps
  induction steps with
  | nil => intro acc; rfl
  | cons s steps ih =>
    intro acc
    rw [List.foldl_cons, ih, scrollStepFn_snd]
    obtain ⟨fst, snd⟩ := acc
    cases fst with
    | none => rfl
    | some ss => exact hpres _ snd

theorem runScrollSteps_bodyPos (b : Option TableData) (t : ScrollTarget)
    (st : ScrState) : (runScrollSteps b t st).2.bodyPos = st.bodyPos := by
  rw [runScrollSteps]
  by_cases h : targetMaxScroll t ≤ 0
  · rw [if_pos h]
  · rw [if_neg h]
    exact foldl_scrollStepFn_bodyPos b t _ _

theorem runScrollSteps_elemPos (b : Option TableData) (t : ScrollTarget)
    (st : ScrState) (i : ℕ)
    (hpres : ∀ p st, (targetSetPos t p st).elemPos i = st.elemPos i) :
    (runScrollSteps b t st).2.elemPos i = st.elemPos i := by
  rw [runScrollSteps]
  by_cases h : targetMaxScroll t ≤ 0
  · rw [if_pos h]
  · rw [if_neg h]
    exact foldl_scrollStepFn_elemPos b t i hpres _ _

theorem performScrollExtraction_snd (b : Option TableData) (t : ScrollTarget)
    (st : ScrState) :
    (performScrollExtraction b t st).2 = (runScrollSteps b t st).2 := by
  rw [performScrollExtraction]
  rcases h : runScrollSteps b t st with ⟨fst, snd⟩
  cases fst <;> rfl

theorem extractTargetStep_elemPos (env : VEnv)
    (acc : Option TableData × ScrState) (t : ScrollTarget) (i : ℕ) :
    ((extractTargetStep env acc t).2).elemPos i = acc.2.elemPos i := by
  cases t with
  | window m th =>
    show ((performScrollExtraction env.baseline (.window m th) acc.2).2).elemPos i
      = acc.2.elemPos i
    rw [performScrollExtraction_snd]
    exact runScrollSteps_elemPos _ _ _ i (fun p st => rfl)
  | body m th =>
    show ((performScrollExtraction env.baseline (.body m th) acc.2).2).elemPos i
      = acc.2.elemPos i
    rw [performScrollExtraction_snd]
    exact runScrollSteps_elemPos _ _ _ i (fun p st => rfl)
  | elem j m th =>
    show Function.update
        ((performScrollExtraction env.baseline (.elem j m th) acc.2).2).elemPos j
        (acc.2.elemPos j) i = acc.2.elemPos i
    by_cases hij : i = j
    · subst hij
      exact Function.update_same i _ _
    · rw [Function.update_noteq hij, performScrollExtraction_snd]
      refine runScrollSteps_elemPos _ _ _ i (fun p st => ?_)
      show Function.update st.elemPos j p i = st.elemPos i
      exact Function.update_noteq hij p st.elemPos

theorem extractTargetStep_bodyPos (env : VEnv)
    (acc : Option TableData × ScrState) (t : ScrollTarget) :
    ((extractTargetStep env acc t).2).bodyPos = acc.2.bodyPos := by
  cases t with
  | window m th =>
    show ((performScrollExtraction env.baseline (.window m th) acc.2).2).bodyPos
      = acc.2.bodyPos
    rw [performScrollExtraction_snd]
    exact runScrollSteps_bodyPos _ _ _
  | body m th => rfl
  | elem j m th =>
    show ((performScrollExtraction env.baseline (.elem j m th) acc.2).2).bodyPos
      = acc.2.bodyPos
    rw [performScrollExtraction_snd]
    exact runScrollSteps_bodyPos _ _ _

theorem foldl_extractTargetStep_state (env : VEnv) :
    ∀ (ts : List ScrollTarget) (acc : Option TableData × ScrState) (i : ℕ),
      ((ts.foldl (extractTargetStep env) acc).2).elemPos i = acc.2.elemPos i ∧
      ((ts.foldl (extractTargetStep env) acc).2).bodyPos = acc.2.bodyPos := by
  intro ts
  induction ts with
  | nil => intro acc i; exact ⟨rfl, rfl⟩
  | cons t ts ih =>
    intro acc i
    rw [List.foldl_cons]
    refine ⟨?_, ?_⟩
    · rw [(ih _ i).1, extractTargetStep_elemPos]
    · rw [(ih _ i).2, extractTargetStep_bodyPos]

theorem extractVirtualizedTableData_snd (env : VEnv) (st : ScrState) :
    (extractVirtualizedTableData env st).2 =
      (env.targets.foldl (extractTargetStep env) (none, st)).2 := rfl

/-- C1 amended: after recovery, every touched scrollable element other than
the window — including `document.body`, whose restore write is a no-op since
window scrolling never altered its own `scrollTop` — has its scroll offset
restored to its pre-recovery value, even when extraction at some offset
throws; the window viewport itself is exempted from the `finally` restore. -/
theorem element_scroll_offsets_restored (env : VEnv) (st : ScrState) (i : ℕ) :
    (extractVirtualizedTableData env st).2.elemPos i = st.elemPos i ∧
    (extractVirtualizedTableData env st).2.bodyPos = st.bodyPos := by
  rw [extractVirtualizedTableData_snd]
  exact foldl_extractTargetStep_state env env.targets (none, st) i

/-- C1 counterexample: when the window viewport is used as a scroll target,
its offset is NOT restored after recovery — the sampling loop leaves it at
the last visited offset (here the full max scroll 100, starting from 0),
because the `finally` clause skips `scrollableElement === window`. -/
theorem window_scroll_not_restored :
    scrollStateInit.windowPos = 0 ∧
    (extractVirtualizedTableData windowOnlyEnv scrollStateInit).2.windowPos = 100 := by
  refine ⟨rfl, ?_⟩
  rw [extractVirtualizedTableData_snd]
  show ((extractTargetStep windowOnlyEnv (none, scrollStateInit)
    (.window 100 none)).2).windowPos = 100
  show ((performScrollExtraction windowOnlyEnv.baseline (.window 100 none)
    scrollStateInit).2).windowPos = 100
  rw [performScrollExtraction_snd, runScrollSteps,
    if_neg (by norm_num [targetMaxScroll] : ¬targetMaxScroll (.window 100 none) ≤ 0)]
  rw [show List.range 11 = [0, 1, 2, 3, 4, 5, 6, 7, 8, 9, 10] from rfl]
  simp only [List.foldl_cons, List.foldl_nil, scrollStepFn, targetThrowsAt,
    targetMaxScroll, targetSetPos, scrollStepData]
  simp

/-! ## Claim C3: recovery versus baseline unique rows -/

theorem map_eq_self_of_eq {α : Type} (f : α → α) :
    ∀ (l : List α), (∀ x ∈ l, f x = x) → l.map f = l := by
  intro l
  induction l with
  | nil => intro _; rfl
  | cons a l ih =>
    intro h
    rw [List.map_cons, h a (List.mem_cons_self _ _),
      ih (fun x hx => h x (List.mem_cons_of_mem _ hx))]

theorem eq_of_zip_eq :
    ∀ (l1 l2 : List String), l1.length = l2.length →
      (∀ p ∈ l1.zip l2, p.1 = p.2) → l1 = l2 := by
  intro l1
  induction l1 with
  | nil =>
    intro l2 hlen _
    cases l2 with
    | nil => rfl
    | cons b l2 => simp at hlen
  | cons a l1 ih =>
    intro l2 hlen hzip
    cases l2 with
    | nil => simp at hlen
    | cons b l2 =>
      have ha : a = b := hzip (a, b) (by simp [List.zip_cons_cons])
      rw [ha, ih l2 (by simpa using hlen)
        (fun p hp => hzip p (by simp [List.zip_cons_cons, hp]))]

theorem zip_self_eq (l : List String) : ∀ p ∈ l.zip l, p.1 = p.2 := by
  induction l with
  | nil => intro p hp; simp at hp
  | cons a l ih =>
    intro p hp
    rw [List.zip_cons_cons] at hp
    rcases List.mem_cons.mp hp with rfl | hp
    · rfl
    · exact ih p hp

theorem rowEqHeaders_eq_true_iff (row hs : List String) :
    rowEqHeaders row hs = true ↔ row = hs := by
  rw [rowEqHeaders]
  constructor
  · intro h
    simp only [Bool.and_eq_true, decide_eq_true_eq, List.all_eq_true] at h
    exact eq_of_zip_eq row hs h.1 (fun p hp => h.2 p hp)
  · rintro rfl
    simp only [Bool.and_eq_true, decide_eq_true_eq, List.all_eq_true]
    exact ⟨trivial, zip_self_eq _⟩

/-- When the baseline's cells and headers are already trimmed and no data row
reproduces the headers, normalization only deduplicates. -/
theorem normalizeData_trimmed (b : TableData)
    (hcells : ∀ r ∈ b.rows, ∀ c ∈ r, jsTrim c = c)
    (hheaders : ∀ h ∈ b.headers, jsTrim h = h)
    (hnohdr : b.headers ∉ b.rows) :
    (normalizeData b).rows = dedupByKey b.rows := by
  rw [normalizeData_rows]
  have hmap : b.rows.map (fun r => r.map jsTrim) = b.rows :=
    map_eq_self_of_eq _ _ (fun r hr => map_eq_self_of_eq _ _ (hcells r hr))
  have hhdmap : b.headers.map jsTrim = b.headers := map_eq_self_of_eq _ _ hheaders
  rw [hmap, hhdmap]
  by_cases hguard : b.headers.length > 0 ∧ b.rows.length > 0
  · rw [if_pos hguard]
    congr 1
    rw [List.filter_eq_self]
    intro r hr
    cases hEq : rowEqHeaders r b.headers
    · rfl
    · exact absurd (((rowEqHeaders_eq_true_iff r b.headers).mp hEq) ▸ hr) hnohdr
  · rw [if_neg hguard]

theorem normalizeData_trimmed_length (b : TableData)
    (hcells : ∀ r ∈ b.rows, ∀ c ∈ r, jsTrim c = c)
    (hheaders : ∀ h ∈ b.headers, jsTrim h = h)
    (hnohdr : b.headers ∉ b.rows) :
    (normalizeData b).rows.length = uniqueRowCount b := by
  rw [normalizeData_trimmed b hcells hheaders hnohdr, length_dedupByKey]
  rfl

/-- Every row of a normalized result is trim-fixed cell-wise. -/
theorem normalizeData_rows_trimmed (Z : TableData) :
    ∀ r ∈ (normalizeData Z).rows, r.map jsTrim = r := by
  intro r hr
  rw [normalizeData_rows] at hr
  have hr1 := mem_of_mem_dedupByKeyGo _ [] r hr
  have hr0 : r ∈ Z.rows.map (fun row => row.map jsTrim) := by
    by_cases hguard : (Z.headers.map jsTrim).length > 0 ∧
        (Z.rows.map (fun row => row.map jsTrim)).length > 0
    · rw [if_pos hguard] at hr1
      exact List.mem_of_mem_filter hr1
    · rwa [if_neg hguard] at hr1
  obtain ⟨r0, _, rfl⟩ := List.mem_map.mp hr0
  rw [List.map_map]
  exact List.map_congr_left (fun c _ => jsTrim_idem c)

/-- Normalization is idempotent on the row set. -/
theorem normalizeData_rows_idem (Z : TableData) :
    (normalizeData (normalizeData Z)).rows = (normalizeData Z).rows := by
  have hhd : (normalizeData Z).headers = Z.headers := rfl
  have htrim : (normalizeData Z).rows.map (fun r => r.map jsTrim)
      = (normalizeData Z).rows :=
    map_eq_self_of_eq _ _ (normalizeData_rows_trimmed Z)
  rw [normalizeData_rows, hhd, htrim]
  by_cases hz : (Z.headers.map jsTrim).length > 0
  · by_cases hr2 : (normalizeData Z).rows.length > 0
    · rw [if_pos ⟨hz, hr2⟩]
      have hfilter : (normalizeData Z).rows.filter
          (fun row => !rowEqHeaders row (Z.headers.map jsTrim))
          = (normalizeData Z).rows := by
        rw [List.filter_eq_self]
        intro r hr
        have hrmem := hr
        rw [normalizeData_rows] at hrmem
        have hr1 := mem_of_mem_dedupByKeyGo _ [] r hrmem
        have hrows0 : (Z.rows.map (fun row => row.map jsTrim)).length > 0 := by
          by_contra h0
          have : Z.rows.map (fun row => row.map jsTrim) = [] := by
            cases hc : Z.rows.map (fun row => row.map jsTrim) with
            | nil => rfl
            | cons x xs => rw [hc] at h0; simp at h0
          rw [normalizeData_rows, if_neg (fun hand => absurd hand.2 h0), this] at hr
          simp [dedupByKey, dedupByKeyGo] at hr
        rw [if_pos ⟨hz, hrows0⟩] at hr1
        exact (List.mem_filter.mp hr1).2
      rw [hfilter]
      exact dedupByKey_eq_self _ (by
        rw [normalizeData_rows]
        exact dedupByKeyGo_keys_nodup _ [] |>.1)
    · rw [if_neg (fun hand => hr2 hand.2)]
      exact dedupByKey_eq_self _ (by
        rw [normalizeData_rows]
        exact dedupByKeyGo_keys_nodup _ [] |>.1)
  · rw [if_neg (fun hand => hz hand.1)]
    exact dedupByKey_eq_self _ (by
      rw [normalizeData_rows]
      exact dedupByKeyGo_keys_nodup _ [] |>.1)

theorem addScrollRow_eq (pos : ℚ) (es : List ScrollEntry) (sn : List String)
    (row : List String) :
    addScrollRow pos (es, sn) row =
      (if rowKey row ∈ sn then (es, sn)
       else (es ++ [⟨row, pos, es.length⟩], rowKey row :: sn)) := rfl

theorem addScrollRow_fold_data (pos : ℚ) :
    ∀ (rows : List (List String)) (es : List ScrollEntry) (sn : List String),
      ((rows.foldl (addScrollRow pos) (es, sn)).1).map (fun e => e.data) =
        es.map (fun e => e.data) ++ dedupByKeyGo sn rows := by
  intro rows
  induction rows with
  | nil => intro es sn; simp [dedupByKeyGo]
  | cons r rest ih =>
    intro es sn
    rw [List.foldl_cons, addScrollRow_eq, dedupByKeyGo]
    by_cases hk : rowKey r ∈ sn
    · rw [if_pos hk, if_pos hk, ih]
    · rw [if_neg hk, if_neg hk, ih]
      simp

theorem addScrollRow_fold_seen_mono (pos : ℚ) :
    ∀ (rows : List (List String)) (es : List ScrollEntry) (sn : List String)
      (k : String), k ∈ sn → k ∈ (rows.foldl (addScrollRow pos) (es, sn)).2 := by
  intro rows
  induction rows with
  | nil => intro es sn k hk; exact hk
  | cons r rest ih =>
    intro es sn k hk
    rw [List.foldl_cons, addScrollRow_eq]
    by_cases hkr : rowKey r ∈ sn
    · rw [if_pos hkr]; exact ih es sn k hk
    · rw [if_neg hkr]
      exact ih _ _ k (List.mem_cons_of_mem _ hk)

theorem addScrollRow_fold_seen_covers (pos : ℚ) :
    ∀ (rows : List (List String)) (es : List ScrollEntry) (sn : List String)
      (k : String), k ∈ rows.map rowKey →
      k ∈ (rows.foldl (addScrollRow pos) (es, sn)).2 := by
  intro rows
  induction rows with
  | nil => intro es sn k hk; simp at hk
  | cons r rest ih =>
    intro es sn k hk
    rw [List.foldl_cons, addScrollRow_eq]
    rcases List.mem_cons.mp hk with rfl | hk
    · by_cases hkr : rowKey r ∈ sn
      · rw [if_pos hkr]; exact addScrollRow_fold_seen_mono pos rest es sn _ hkr
      · rw [if_neg hkr]
        exact addScrollRow_fold_seen_mono pos rest _ _ _ (List.mem_cons_self _ _)
    · by_cases hkr : rowKey r ∈ sn
      · rw [if_pos hkr]; exact ih es sn k hk
      · rw [if_neg hkr]; exact ih _ _ k hk

theorem addScrollRow_fold_nochange (pos : ℚ) :
    ∀ (rows : List (List String)) (es : List ScrollEntry) (sn : List String),
      (∀ k ∈ rows.map rowKey, k ∈ sn) →
      rows.foldl (addScrollRow pos) (es, sn) = (es, sn) := by
  intro rows
  induction rows with
  | nil => intro es sn _; rfl
  | cons r rest ih =>
    intro es sn hall
    rw [List.foldl_cons, addScrollRow_eq,
      if_pos (hall _ (by simp))]
    exact ih es sn (fun k hk => hall k (by simp [hk]))

theorem addScrollRow_fold_orders (pos : ℚ) :
    ∀ (rows : List (List String)) (es : List ScrollEntry) (sn : List String),
      es.map (fun e => e.order) = List.range es.length →
      (∀ e ∈ es, e.scroll = pos) →
      (((rows.foldl (addScrollRow pos) (es, sn)).1).map (fun e => e.order) =
        List.range ((rows.foldl (addScrollRow pos) (es, sn)).1).length) ∧
      ∀ e ∈ (rows.foldl (addScrollRow pos) (es, sn)).1, e.scroll = pos := by
  intro rows
  induction rows with
  | nil => intro es sn h1 h2; exact ⟨h1, h2⟩
  | cons r rest ih =>
    intro es sn h1 h2
    rw [List.foldl_cons, addScrollRow_eq]
    by_cases hk : rowKey r ∈ sn
    · rw [if_pos hk]; exact ih es sn h1 h2
    · rw [if_neg hk]
      refine ih _ _ ?_ ?_
      · rw [List.map_append, h1, List.length_append]
        simp [List.range_succ]
      · intro e he
        rcases List.mem_append.mp he with he | he
        · exact h2 e he
        · rw [List.mem_singleton] at he
          rw [he]

/-- Entries whose scroll positions all coincide and whose order fields list
`0, 1, 2, ...` are already in comparator order. -/
theorem entries_sorted (entries : List ScrollEntry) (pos : ℚ)
    (hord : entries.map (fun e => e.order) = List.range entries.length)
    (hscr : ∀ e ∈ entries, e.scroll = pos) :
    List.Sorted entryLe entries := by
  rw [List.Sorted, List.pairwise_iff_getElem]
  intro i j hi hj hij
  have horder : ∀ (k : ℕ) (hk : k < entries.length), entries[k].order = k := by
    intro k hk
    have hk2 : k < (entries.map (fun e => e.order)).length := by simpa using hk
    have hk3 : k < (List.range entries.length).length := by simpa using hk
    have h1 : (entries.map (fun e => e.order))[k] = entries[k].order :=
      List.getElem_map _
    have h2 : (entries.map (fun e => e.order))[k] =
        (List.range entries.length)[k] := List.getElem_of_eq hord _
    rw [← h1, h2, List.getElem_range]
  refine Or.inr ⟨?_, ?_⟩
  · rw [hscr _ (List.getElem_mem hi), hscr _ (List.getElem_mem hj)]
  · rw [horder i hi, horder j hj]
    omega

theorem foldl_scrollStepFn_none (b : Option TableData) (t : ScrollTarget) :
    ∀ (steps : List ℕ) (acc : Option SState × ScrState), acc.1 = none →
      (steps.foldl (scrollStepFn b t) acc).1 = none := by
  intro steps
  induction steps with
  | nil => intro acc h; exact h
  | cons s steps ih =>
    intro acc h
    rw [List.foldl_cons]
    obtain ⟨fst, snd⟩ := acc
    cases fst with
    | none => exact ih _ rfl
    | some ss => simp at h

theorem foldl_scrollStepFn_throws (b : Option TableData) (t : ScrollTarget) :
    ∀ (steps : List ℕ) (acc : Option SState × ScrState) (k : ℕ),
      k ∈ steps → targetThrowsAt t = some k →
      (steps.foldl (scrollStepFn b t) acc).1 = none := by
  intro steps
  induction steps with
  | nil => intro acc k hk _; simp at hk
  | cons s steps ih =>
    intro acc k hk hth
    rw [List.foldl_cons]
    rcases List.mem_cons.mp hk with rfl | hk
    · obtain ⟨fst, snd⟩ := acc
      cases fst with
      | none => exact foldl_scrollStepFn_none b t steps _ rfl
      | some ss =>
        apply foldl_scrollStepFn_none b t steps
        simp [scrollStepFn, hth]
    · exact ih _ k hk hth

theorem foldl_scrollStepFn_fix (b : TableData) (t : ScrollTarget) (ss : SState)
    (hfix : ∀ pos : ℚ, scrollStepData (some b) pos ss = ss) :
    ∀ (steps : List ℕ) (st : ScrState),
      (∀ s ∈ steps, ¬targetThrowsAt t = some s) →
      ((steps.foldl (scrollStepFn b t) ((some ss : Option SState), st)).1) = some ss := by
  intro steps
  induction steps with
  | nil => intro st _; rfl
  | cons s steps ih =>
    intro st hth
    rw [List.foldl_cons]
    have hstep : scrollStepFn b t (some ss, st) s =
        (some ss, targetSetPos t (targetMaxScroll t / 10 * (s : ℚ)) st) := by
      rw [scrollStepFn]
      simp only [if_neg (hth s (List.mem_cons_self _ _)), hfix]
    rw [hstep]
    exact ih _ (fun u hu => hth u (List.mem_cons_of_mem _ hu))

theorem headers_first_update (b : TableData) :
    (if b.headers.length > ([] : List String).length then b.headers else []) =
      b.headers := by
  cases hh : b.headers with
  | nil => simp
  | cons a l => simp

theorem scrollStepData_zero (b : TableData) (pos : ℚ) :
    scrollStepData (some b) pos ⟨[], [], []⟩ =
      ⟨(b.rows.foldl (addScrollRow pos) ([], [])).1,
       (b.rows.foldl (addScrollRow pos) ([], [])).2, b.headers⟩ := by
  rw [scrollStepData]
  rw [headers_first_update]

theorem scrollStepData_fix (b : TableData) (pos : ℚ) (ss : SState)
    (hh : ss.headers = b.headers)
    (hseen : ∀ k ∈ b.rows.map rowKey, k ∈ ss.seenRows) :
    scrollStepData (some b) pos ss = ss := by
  obtain ⟨es, sn, hd⟩ := ss
  simp only at hh hseen
  rw [scrollStepData,
    addScrollRow_fold_nochange pos b.rows es sn hseen, hh]
  simp

theorem runScrollSteps_static (b : TableData) (t : ScrollTarget) (st : ScrState)
    (hm : ¬targetMaxScroll t ≤ 0)
    (hth : ∀ s ∈ List.range 11, ¬targetThrowsAt t = some s) :
    (runScrollSteps (some b) t st).1 =
      some ⟨(b.rows.foldl (addScrollRow (targetMaxScroll t / 10 * ((0 : ℕ) : ℚ)))
          ([], [])).1,
        (b.rows.foldl (addScrollRow (targetMaxScroll t / 10 * ((0 : ℕ) : ℚ)))
          ([], [])).2, b.headers⟩ := by
  rw [runScrollSteps, if_neg hm,
    show List.range 11 = 0 :: [1, 2, 3, 4, 5, 6, 7, 8, 9, 10] from rfl,
    List.foldl_cons]
  have hstep0 : scrollStepFn (some b) t ((some ⟨[], [], []⟩ : Option SState), st) 0 =
      (some (scrollStepData (some b) (targetMaxScroll t / 10 * ((0 : ℕ) : ℚ))
        ⟨[], [], []⟩),
       targetSetPos t (targetMaxScroll t / 10 * ((0 : ℕ) : ℚ)) st) := by
    rw [scrollStepFn]
    simp only [if_neg (hth 0 (by decide))]
  rw [hstep0, scrollStepData_zero]
  apply foldl_scrollStepFn_fix
  · intro pos'
    apply scrollStepData_fix
    · rfl
    · intro k hk
      exact addScrollRow_fold_seen_covers _ b.rows [] [] k hk
  · intro s hs
    apply hth s
    fin_cases hs <;> decide

theorem performScrollExtraction_cases (b : TableData) (t : ScrollTarget)
    (st : ScrState)
    (hcells : ∀ r ∈ b.rows, ∀ c ∈ r, jsTrim c = c)
    (hheaders : ∀ h ∈ b.headers, jsTrim h = h)
    (hnohdr : b.headers ∉ b.rows) :
    (performScrollExtraction (some b) t st).1 = none ∨
    ∃ r, (performScrollExtraction (some b) t st).1 = some r ∧
      ((normalizeData r).rows.length = 0 ∨
        (normalizeData r).rows.length = uniqueRowCount b) := by
  by_cases hm : targetMaxScroll t ≤ 0
  · right
    refine ⟨⟨[], [], inferColumnTypes ([] : List (List String))⟩, ?_, Or.inl rfl⟩
    have h : runScrollSteps (some b) t st = (some ⟨[], [], []⟩, st) := by
      rw [runScrollSteps, if_pos hm]
    rw [performScrollExtraction, h]
    rfl
  · by_cases hthk : ∃ s ∈ List.range 11, targetThrowsAt t = some s
    · left
      obtain ⟨s, hs, hth⟩ := hthk
      have h1 : (runScrollSteps (some b) t st).1 = none := by
        rw [runScrollSteps, if_neg hm]
        exact foldl_scrollStepFn_throws _ t _ _ s hs hth
      rw [performScrollExtraction]
      rcases hrs : runScrollSteps (some b) t st with ⟨fst, snd⟩
      rw [hrs] at h1
      cases fst with
      | none => rfl
      | some ss => simp at h1
    · right
      push_neg at hthk
      have hrun := runScrollSteps_static b t st hm hthk
      have hord := addScrollRow_fold_orders
        (targetMaxScroll t / 10 * ((0 : ℕ) : ℚ)) b.rows [] []
        (by simp) (by simp)
      have hsorted := entries_sorted _ _ hord.1 hord.2
      have hdata := addScrollRow_fold_data
        (targetMaxScroll t / 10 * ((0 : ℕ) : ℚ)) b.rows [] []
      refine ⟨⟨b.headers, dedupByKey b.rows, inferColumnTypes (dedupByKey b.rows)⟩,
        ?_, Or.inr ?_⟩
      · rw [performScrollExtraction]
        rcases hrs : runScrollSteps (some b) t st with ⟨fst, snd⟩
        rw [hrs] at hrun
        have hfst : fst = some ⟨(b.rows.foldl
            (addScrollRow (targetMaxScroll t / 10 * ((0 : ℕ) : ℚ))) ([], [])).1,
          (b.rows.foldl (addScrollRow (targetMaxScroll t / 10 * ((0 : ℕ) : ℚ)))
            ([], [])).2, b.headers⟩ := hrun
        subst hfst
        have hrows : (List.insertionSort entryLe
            ((b.rows.foldl (addScrollRow (targetMaxScroll t / 10 * ((0 : ℕ) : ℚ)))
              ([], [])).1)).map (fun e => e.data) = dedupByKey b.rows := by
          rw [List.Sorted.insertionSort_eq hsorted, hdata]
          rfl
        show (some (⟨b.headers,
          (List.insertionSort entryLe
            ((b.rows.foldl (addScrollRow (targetMaxScroll t / 10 * ((0 : ℕ) : ℚ)))
              ([], [])).1)).map (fun e => e.data),
          inferColumnTypes ((List.insertionSort entryLe
            ((b.rows.foldl (addScrollRow (targetMaxScroll t / 10 * ((0 : ℕ) : ℚ)))
              ([], [])).1)).map (fun e => e.data))⟩ : TableData) : Option TableData)
          = _
        rw [hrows]
      · have hmem : ∀ r ∈ dedupByKey b.rows, r ∈ b.rows :=
          fun r hr => mem_of_mem_dedupByKeyGo _ [] r hr
        have hnorm : (normalizeData ⟨b.headers, dedupByKey b.rows,
            inferColumnTypes (dedupByKey b.rows)⟩).rows =
            dedupByKey (dedupByKey b.rows) :=
          normalizeData_trimmed _
            (fun r hr c hc => hcells r (hmem r hr) c hc)
            hheaders
            (fun hmem2 => hnohdr (hmem _ hmem2))
        rw [hnorm, dedupByKey_eq_self _ (dedupByKey_keys_nodup b.rows),
          length_dedupByKey]
        rfl

theorem bestUpdate_some (best : Option TableData) (c : TableData) :
    ∃ w, bestUpdate best (some c) = some w ∧ c.rows.length ≤ w.rows.length ∧
      (w = c ∨ best = some w) := by
  cases best with
  | none => exact ⟨c, rfl, le_refl _, Or.inl rfl⟩
  | some z =>
    by_cases h : c.rows.length > z.rows.length
    · exact ⟨c, if_pos h, le_refl _, Or.inl rfl⟩
    · exact ⟨z, if_neg h, Nat.le_of_not_lt h, Or.inr rfl⟩

theorem bestUpdate_fst_some (z : TableData) (cand : Option TableData) :
    ∃ w, bestUpdate (some z) cand = some w ∧ z.rows.length ≤ w.rows.length ∧
      (w = z ∨ cand = some w) := by
  cases cand with
  | none => exact ⟨z, rfl, le_refl _, Or.inl rfl⟩
  | some c =>
    by_cases h : c.rows.length > z.rows.length
    · exact ⟨c, if_pos h, Nat.le_of_lt h, Or.inr rfl⟩
    · exact ⟨z, if_neg h, le_refl _, Or.inl rfl⟩

theorem normalizeOpt_eq_some (o : Option TableData) (w : TableData)
    (h : normalizeOpt o = some w) : ∃ d, w = normalizeData d := by
  cases o with
  | none => simp [normalizeOpt] at h
  | some d => exact ⟨d, (Option.some.inj h).symm⟩

theorem extractTargetStep_fst (env : VEnv) (acc : Option TableData × ScrState)
    (t : ScrollTarget) :
    (extractTargetStep env acc t).1 =
      match (performScrollExtraction env.baseline t acc.2).1 with
      | none => acc.1
      | some r => bestUpdate acc.1 (some (normalizeData r)) := rfl

theorem extractTargetStep_P (env : VEnv) (b : TableData)
    (hb : env.baseline = some b)
    (hcells : ∀ r ∈ b.rows, ∀ c ∈ r, jsTrim c = c)
    (hheaders : ∀ h ∈ b.headers, jsTrim h = h)
    (hnohdr : b.headers ∉ b.rows)
    (acc : Option TableData × ScrState) (t : ScrollTarget)
    (hP : acc.1 = none ∨ ∃ Y, acc.1 = some (normalizeData Y) ∧
      ((normalizeData Y).rows.length = 0 ∨
        (normalizeData Y).rows.length = uniqueRowCount b)) :
    (extractTargetStep env acc t).1 = none ∨
      ∃ Y, (extractTargetStep env acc t).1 = some (normalizeData Y) ∧
        ((normalizeData Y).rows.length = 0 ∨
          (normalizeData Y).rows.length = uniqueRowCount b) := by
  rw [extractTargetStep_fst, hb]
  rcases performScrollExtraction_cases b t acc.2 hcells hheaders hnohdr with
    hnone | ⟨r, hr, hlen⟩
  · rw [hnone]
    exact hP
  · rw [hr]
    rcases hP with h0 | ⟨Y, hY, hYlen⟩
    · rw [h0]
      right
      exact ⟨r, rfl, hlen⟩
    · rw [hY]
      by_cases hgt : (normalizeData r).rows.length > (normalizeData Y).rows.length
      · right
        exact ⟨r, if_pos hgt, hlen⟩
      · right
        exact ⟨Y, if_neg hgt, hYlen⟩

theorem foldl_extractTargetStep_P (env : VEnv) (b : TableData)
    (hb : env.baseline = some b)
    (hcells : ∀ r ∈ b.rows, ∀ c ∈ r, jsTrim c = c)
    (hheaders : ∀ h ∈ b.headers, jsTrim h = h)
    (hnohdr : b.headers ∉ b.rows) :
    ∀ (ts : List ScrollTarget) (acc : Option TableData × ScrState),
      (acc.1 = none ∨ ∃ Y, acc.1 = some (normalizeData Y) ∧
        ((normalizeData Y).rows.length = 0 ∨
          (normalizeData Y).rows.length = uniqueRowCount b)) →
      ((ts.foldl (extractTargetStep env) acc).1 = none ∨
        ∃ Y, (ts.foldl (extractTargetStep env) acc).1 = some (normalizeData Y) ∧
          ((normalizeData Y).rows.length = 0 ∨
            (normalizeData Y).rows.length = uniqueRowCount b)) := by
  intro ts
  induction ts with
  | nil => intro acc h; exact h
  | cons t ts ih =>
    intro acc h
    rw [List.foldl_cons]
    exact ih _ (extractTargetStep_P env b hb hcells hheaders hnohdr acc t h)

/-- C3: the amended guarantee. When a virtualized-recovery baseline has
trim-fixed cells and headers and no data row cell-identical to the header row,
the recovery result exists and preserves at least the baseline's number of
unique row fingerprints; the spec's unconditional claim fails when a data row
equals the headers (see the counterexample). -/
theorem recovery_unique_rows_ge_baseline (env : VEnv) (st : ScrState)
    (b : TableData) (hb : env.baseline = some b)
    (hcells : ∀ r ∈ b.rows, ∀ c ∈ r, jsTrim c = c)
    (hheaders : ∀ h ∈ b.headers, jsTrim h = h)
    (hnohdr : b.headers ∉ b.rows) :
    ∃ res, (extractVirtualizedTableData env st).1 = some res ∧
      uniqueRowCount b ≤ uniqueRowCount res := by
  have hP := foldl_extractTargetStep_P env b hb hcells hheaders hnohdr
    env.targets (none, st) (Or.inl rfl)
  set p1 := (env.targets.foldl (extractTargetStep env) (none, st)).1 with hp1
  have hfst : (extractVirtualizedTableData env st).1 =
      normalizeOpt (recoveryFallback env (recoveryPhase2 env p1)) := rfl
  by_cases hneed : recoveryNeedsMore p1 = true
  · have hrw : recoveryPhase2 env p1 =
        bestUpdate (bestUpdate p1 (normalizeOpt env.baseline))
          (normalizeOpt env.deepResult) := by
      rw [recoveryPhase2, if_pos hneed]
    have hbase : normalizeOpt env.baseline = some (normalizeData b) := by
      rw [hb]
      rfl
    rw [hbase] at hrw
    obtain ⟨w1, hw1eq, hw1len, hw1or⟩ := bestUpdate_some p1 (normalizeData b)
    obtain ⟨w2, hw2eq, hw2len, hw2or⟩ :=
      bestUpdate_fst_some w1 (normalizeOpt env.deepResult)
    have hw1img : ∃ Y, w1 = normalizeData Y := by
      rcases hw1or with h | h
      · exact ⟨b, h⟩
      · rcases hP with h0 | ⟨Y, hY, hYl⟩
        · rw [h0] at h
          simp at h
        · rw [h] at hY
          exact ⟨Y, Option.some.inj hY⟩
    have hw2img : ∃ Y, w2 = normalizeData Y := by
      rcases hw2or with h | h
      · rcases hw1img with ⟨Y, hY⟩
        exact ⟨Y, h ▸ hY⟩
      · exact normalizeOpt_eq_some _ _ h
    rcases hw2img with ⟨Y2, hY2⟩
    refine ⟨normalizeData w2, ?_, ?_⟩
    · rw [hfst, hrw, hw1eq, hw2eq]
      rfl
    · have h1 : uniqueRowCount (normalizeData w2) =
          (normalizeData w2).rows.length := uniqueRowCount_normalizeData w2
      have h2 : (normalizeData w2).rows.length = w2.rows.length := by
        rw [hY2, normalizeData_rows_idem]
      have h3 : (normalizeData b).rows.length = uniqueRowCount b :=
        normalizeData_trimmed_length b hcells hheaders hnohdr
      omega
  · rw [Bool.not_eq_true] at hneed
    rcases hP with h0 | ⟨Y, hY, hYlen⟩
    · rw [h0] at hneed
      simp [recoveryNeedsMore] at hneed
    · rw [hY] at hneed
      have hge : 15 ≤ (normalizeData Y).rows.length := by
        simp [recoveryNeedsMore] at hneed
        omega
      have hlen : (normalizeData Y).rows.length = uniqueRowCount b := by
        rcases hYlen with h | h
        · omega
        · exact h
      have hrw : recoveryPhase2 env p1 = p1 := by
        rw [recoveryPhase2, if_neg]
        rw [hY, hneed]
        simp
      refine ⟨normalizeData (normalizeData Y), ?_, ?_⟩
      · rw [hfst, hrw, hY]
        rfl
      · rw [uniqueRowCount_normalizeData, normalizeData_rows_idem, hlen]

/-- Witness: a concrete trimmed baseline with distinct rows satisfies the
hypotheses, and recovery keeps its two unique rows. -/
theorem recovery_unique_rows_ge_baseline_witness :
    ∃ res, (extractVirtualizedTableData recoveryWitnessEnv recoveryWitnessSt).1 =
        some res ∧
      uniqueRowCount recoveryWitnessBase ≤ uniqueRowCount res :=
  recovery_unique_rows_ge_baseline recoveryWitnessEnv recoveryWitnessSt
    recoveryWitnessBase rfl (by decide) (by decide) (by decide)

/-- Counterexample to C3 as stated: a baseline whose first data row is
cell-identical to the header row has 2 unique rows, but `_normalizeData` drops
that row, so the recovery result retains only 1. -/
theorem recovery_fewer_unique_rows_example :
    ((extractVirtualizedTableData headerDupEnv recoveryWitnessSt).1.map
        uniqueRowCount = some 1) ∧
      uniqueRowCount headerDupBaseline = 2 := by
  constructor
  · decide
  · decide
